import Mathlib

/-!
Receive-side stream statistics: `server/pcaprxstats.cpp`.

A shallow embedding of the class `PcapRxStats`: its members, the statements of
`run()` executed by the capture thread, the statements of `start()` and
`stop()` executed by the controller thread, and `debugStats()`.

The two threads share the members of the object, so the embedding is a
transition system: one event is one statement (or one library call together
with the value the library returned) executed by one of the two threads, and
every interleaving of the two threads is a sequence of events.  The answers of
libpcap are inputs carried by the events.  The flag `win32` selects the
`Q_OS_WIN32` build of the two conditionally compiled places.

Code of the repository that this source file calls but does not contain (the
codec `SignProtocol`, the table type `StreamStats`, the base class
`PcapSession`) is a parameter or is modelled from the specification; the
definitions concerned say so.
-/

namespace PcapRxStats

/-! ## Data model -/

/-- The values of `state_`. -/
inductive State where
  | kNotStarted
  | kRunning
  | kFinished
  deriving DecidableEq, Repr

/-- The libpcap record `struct pcap_stat`; every field is a `u_int`.  The last
three fields exist only in the `Q_OS_WIN32` build. -/
structure pcap_stat where
  ps_recv : Nat
  ps_drop : Nat
  ps_ifdrop : Nat
  ps_capt : Nat
  ps_sent : Nat
  ps_netdrop : Nat
  deriving DecidableEq, Repr

/-- Modelled from the spec: the record of the stream-statistics table (its
declaration is in a header outside this source file).  The spec describes it
as `{receivedPackets, receivedBytes}` and gives the counters no width, so they
are natural numbers here. -/
structure StreamStatsTuple where
  rx_pkts : Nat
  rx_bytes : Nat
  deriving DecidableEq, Repr

/-- Modelled from the spec: the stream-statistics table, a mapping from stream
identifier to record; `none` means that the table holds no record for the
identifier. -/
abbrev StreamStats := Nat → Option StreamStatsTuple

/-- The table with no record. -/
def StreamStats.empty : StreamStats := fun _ => none

/-- The access `table[guid]` followed by an update of the record: as in a hash
table, a missing record is first created with all counters zero. -/
def StreamStats.modify (t : StreamStats) (guid : Nat)
    (f : StreamStatsTuple → StreamStatsTuple) : StreamStats :=
  fun k => if k = guid then some (f ((t guid).getD ⟨0, 0⟩)) else t k

/-- The protocol codec `SignProtocol` (outside this source file), taken as a
parameter: `magic()` and `packetGuid(data, caplen, &guid)`, the latter
returning the stream identifier when it succeeds. -/
structure Codec where
  magic : Nat
  packetGuid : List Nat → Nat → Option Nat

/-- Position of the capture thread inside `run()`. -/
inductive RxPc where
  | idle          -- the thread is not executing `run()`
  | entry         -- lines 47-64: locals, capture filter text
  | openLive      -- line 66: `handle_ = pcap_open_live(...)`
  | openCheck     -- lines 68-79: `if (handle_ == NULL)`
  | setDirection  -- lines 81-93
  | compile       -- lines 95-100: `pcap_compile`
  | setFilter     -- lines 102-106: `pcap_setfilter`
  | skipFilter    -- lines 108-110: `memset(&lastPcapStats_, ...)`, `preRun()`
  | setRunning    -- line 111: `state_ = kRunning`
  | nextEx        -- lines 117-141: `pcap_next_ex` and the `switch`
  | stopCheck     -- lines 143-146: `if (stop_) break`
  | close         -- lines 148-149: `postRun()`, `pcap_close(handle_)`
  | clearHandle   -- line 150: `handle_ = NULL`
  | clearStop     -- line 151: `stop_ = false`
  | atExit        -- line 154: `state_ = kFinished`
  deriving DecidableEq, Repr

/-- Position of the controller thread inside `start()` or `stop()`. -/
inductive CtlPc where
  | idle        -- no call in progress
  | startCheck  -- line 159: `if (state_ == kRunning)`
  | startReset  -- line 164: `state_ = kNotStarted`
  | startSpawn  -- line 165: `PcapSession::start()`
  | startPoll   -- lines 167-168: `while (state_ == kNotStarted)`
  | startRet    -- line 170: `return true`
  | stopCheck   -- line 175: `if (state_ == kRunning)`
  | stopSet     -- line 176: `stop_ = true`
  | stopBreak   -- line 177: `PcapSession::stop(handle_)`
  | stopPoll    -- lines 178-179: `while (state_ == kRunning)`
  | stopWarn    -- line 182: `qWarning(...)`
  | stopRet     -- line 184: `return true`
  deriving DecidableEq, Repr

/-- A capture session: the members of the `PcapRxStats` object, followed by
the positions of the two threads, the locals of `run()` that outlive one
statement, and the value returned by the last call of the controller (`none`
while a call is in progress). -/
structure Session where
  device_ : String
  id_ : Int
  state_ : State
  stop_ : Bool
  isDirectional_ : Bool
  handle_ : Option Nat
  lastPcapStats_ : pcap_stat
  streamStats_ : StreamStats
  rx : RxPc
  ctl : CtlPc
  capture_filter : String
  errbuf : String
  retval : Option Bool

set_option linter.dupNamespace false in
/-- The constructor `PcapRxStats::PcapRxStats` (lines 27-38).  It does not
initialise `lastPcapStats_`, whose initial content is the parameter `junk`. -/
def PcapRxStats (device : String) (portStreamStats : StreamStats) (id : Int)
    (junk : pcap_stat) : Session where
  device_ := device
  id_ := id
  state_ := .kNotStarted
  stop_ := false
  isDirectional_ := true
  handle_ := none
  lastPcapStats_ := junk
  streamStats_ := portStreamStats
  rx := .idle
  ctl := .idle
  capture_filter := ""
  errbuf := ""
  retval := none

/-! ## `QString` text operations used by the source -/

/-- Value of a decimal digit character. -/
def digitVal (c : Char) : Option Nat :=
  if c.isDigit then some (c.toNat - 48) else none

/-- The number of a place marker, read right after a percent sign: one digit
or two. The second component is the text after the marker. -/
def parseMarker : List Char → Option (Nat × List Char)
  | [] => none
  | [d] => (digitVal d).map (fun a => (a, []))
  | d :: e :: rest =>
    match digitVal d with
    | none => none
    | some a =>
      match digitVal e with
      | some b => some (10 * a + b, rest)
      | none => some (a, e :: rest)

/-- The lowest place-marker number that occurs in a text. -/
def lowestMarker : List Char → Option Nat
  | [] => none
  | c :: cs =>
    if c = '%' then
      match parseMarker cs, lowestMarker cs with
      | some (n, _), some m => some (min n m)
      | some (n, _), none => some n
      | none, r => r
    else lowestMarker cs

/-- Replace every occurrence of the place marker number `n` by `rep`; the
first argument counts marker characters that remain to be skipped. -/
def replaceMarker (n : Nat) (rep : List Char) : Nat → List Char → List Char
  | _, [] => []
  | k + 1, _ :: cs => replaceMarker n rep k cs
  | 0, c :: cs =>
    if c = '%' then
      match parseMarker cs with
      | some (m, rest) =>
        if m = n then rep ++ replaceMarker n rep (cs.length - rest.length) cs
        else c :: replaceMarker n rep 0 cs
      | none => c :: replaceMarker n rep 0 cs
    else c :: replaceMarker n rep 0 cs

/-- The Qt operation `QString::arg(const QString &)`: every occurrence of the
lowest-numbered place marker is replaced by the argument; a text without a
place marker is returned unchanged. -/
def QString_arg (fmt : String) (a : String) : String :=
  match lowestMarker fmt.data with
  | none => fmt
  | some n => String.mk (replaceMarker n a.data 0 fmt.data)

/-- The Qt operation `QString::number(n, base)`: lower-case digits, no prefix. -/
def QString_number (n : Nat) (base : Nat) : String :=
  String.mk (Nat.toDigits base n)

/-- The Qt operation `QString::arg(uint a, int fieldWidth, int base)`: the
number is padded on the left with spaces up to `fieldWidth`. -/
def QString_argNum (fmt : String) (a : Nat) (fieldWidth : Nat) (base : Nat) : String :=
  let txt := QString_number a base
  QString_arg fmt (String.mk (List.replicate (fieldWidth - txt.length) ' ') ++ txt)

/-- The constant `BASE_HEX` (defined outside this source file). -/
def BASE_HEX : Nat := 16

/-- The capture filter text built by `run()` (lines 51-62). -/
def capture_filter (magic : Nat) : String :=
  (QString_argNum "(ether[len - 4:4] == 0x%1)" magic 0 BASE_HEX).append
    ("and not ("
      ++ "icmp or "
      ++ "(vlan and icmp) or "
      ++ "(vlan and icmp) or "
      ++ "(vlan and icmp) or "
      ++ "(vlan and icmp) "
      ++ ")")

/-! ## Pure reads and `debugStats()` -/

/-- The member `isRunning()` (lines 187-190). -/
def isRunning (s : Session) : Bool := decide (s.state_ = .kRunning)

/-- The member `isDirectional()` (lines 192-195). -/
def isDirectional (s : Session) : Bool := s.isDirectional_

/-- The member `handle()` (lines 40-43). -/
def handle (s : Session) : Option Nat := s.handle_

/-- Subtraction of two `u_int` values: the result is reduced modulo `2 ^ 32`. -/
def usub (a b : Nat) : Nat := (a % 2 ^ 32 + (2 ^ 32 - b % 2 ^ 32)) % 2 ^ 32

/-- The record `incPcapStats` computed by `debugStats()` (lines 209-214 and
234-236): field by field, the reading minus the baseline. -/
def incPcapStats (cur last : pcap_stat) : pcap_stat where
  ps_recv := usub cur.ps_recv last.ps_recv
  ps_drop := usub cur.ps_drop last.ps_drop
  ps_ifdrop := usub cur.ps_ifdrop last.ps_ifdrop
  ps_capt := usub cur.ps_capt last.ps_capt
  ps_sent := usub cur.ps_sent last.ps_sent
  ps_netdrop := usub cur.ps_netdrop last.ps_netdrop

/-- What the capture engine answers to the statistics query of `debugStats()`:
`ret` and `stats` are the result and the record filled by `pcap_stats` (other
builds), `exStats` and `size` the result of `pcap_stats_ex` (`Q_OS_WIN32`
build), `err` the text of `pcap_geterr`. -/
structure StatsQuery where
  ret : Int
  stats : pcap_stat
  exStats : Option pcap_stat
  size : Int
  err : String

/-- The text returned by `debugStats()` on success: three counters (lines
237-240), or six in the `Q_OS_WIN32` build (lines 215-222). -/
def statsText (win32 : Bool) (inc : pcap_stat) : String :=
  if win32 then
    QString_argNum (QString_argNum (QString_argNum (QString_argNum (QString_argNum
      (QString_argNum "recv: %1 drop: %2 ifdrop: %3 capt: %4 sent: %5 netdrop: %6"
        inc.ps_recv 0 10) inc.ps_drop 0 10) inc.ps_ifdrop 0 10) inc.ps_capt 0 10)
        inc.ps_sent 0 10) inc.ps_netdrop 0 10
  else
    QString_argNum (QString_argNum (QString_argNum "recv: %1 drop: %2 ifdrop: %3"
      inc.ps_recv 0 10) inc.ps_drop 0 10) inc.ps_ifdrop 0 10

/-- The text returned by `debugStats()` when the query fails (lines 225-226
and 243-244). -/
def statsError (err : String) : String :=
  QString_arg "error reading pcap stats: %1" err

/-- The member `debugStats()` (lines 198-249): the returned text and the
session afterwards.  `win32` selects the `Q_OS_WIN32` build. -/
def debugStats (win32 : Bool) (q : StatsQuery) (s : Session) : String × Session :=
  if win32 then
    match q.exStats with
    | some st =>
      if 6 * 4 ≤ (q.size % 2 ^ 32).toNat then
        (statsText true (incPcapStats st s.lastPcapStats_), { s with lastPcapStats_ := st })
      else (statsError q.err, s)
    | none => (statsError q.err, s)
  else
    if q.ret = 0 then
      (statsText false (incPcapStats q.stats s.lastPcapStats_),
        { s with lastPcapStats_ := q.stats })
    else (statsError q.err, s)

/-! ## The two threads -/

/-- One event of a session: a call made by the controller, one statement
executed by one of the two threads, or one library call of `run()` together
with what the library returned. -/
inductive Ev where
  /-- The controller enters `start()`. -/
  | callStart
  /-- The controller enters `stop()`. -/
  | callStop
  /-- The controller executes the statement it is at. -/
  | ctl
  /-- The capture thread executes the statement it is at (no library answer
  is involved). -/
  | rx
  /-- `pcap_open_live` returns a handle or `NULL`, leaving a text in `errbuf`. -/
  | rxOpen (h : Option Nat) (errbuf : String)
  /-- `pcap_setdirection` returns. -/
  | rxSetDirection (ret : Int)
  /-- `pcap_compile` returns. -/
  | rxCompile (ret : Int)
  /-- `pcap_setfilter` returns. -/
  | rxSetFilter (ret : Int)
  /-- `pcap_next_ex` returns; `caplen` and `data` are the captured length and
  the bytes of the packet it delivered, if any. -/
  | rxNext (ret : Int) (caplen : Nat) (data : List Nat)

/-- The constant `PCAP_OPENFLAG_PROMISCUOUS` (defined outside this source
file), the value of the local `flags` of `run()`. -/
def PCAP_OPENFLAG_PROMISCUOUS : Nat := 1

/-- The test `QString(errbuf).contains("promiscuous")`. -/
def containsPromiscuous (errbuf : String) : Bool :=
  decide ("promiscuous".data <:+: errbuf.data)

/-- Modelled from the spec: `PcapSession::start()` (outside this source file)
"signals the background execution unit to begin": the capture thread, if it is
not executing, starts `run()`. -/
def PcapSession_start (s : Session) : Session :=
  if s.rx = .idle then { s with rx := .entry } else s

/-- Modelled from the spec: `PcapSession::stop(handle)` (outside this source
file), the operation `abort(handle)` of the capture engine, "so a blocked
receive call returns promptly".  The spec gives it no result and no failure:
it returns for every handle, null or not, and changes no member of the
object; the answers of `pcap_next_ex` are not constrained by it. -/
def PcapSession_stop (_handle : Option Nat) (s : Session) : Session := s

/-- One statement of `bool PcapRxStats::start()` (lines 157-171), executed by
the controller thread at the position `ctl`. -/
def start (s : Session) : Option Session :=
  match s.ctl with
  | .startCheck =>
    if s.state_ = .kRunning then some { s with ctl := .startRet }
    else some { s with ctl := .startReset }
  | .startReset => some { s with state_ := .kNotStarted, ctl := .startSpawn }
  | .startSpawn => some (PcapSession_start { s with ctl := .startPoll })
  | .startPoll =>
    if s.state_ = .kNotStarted then some s else some { s with ctl := .startRet }
  | .startRet => some { s with ctl := .idle, retval := some true }
  | _ => none

/-- One statement of `bool PcapRxStats::stop()` (lines 173-185), executed by
the controller thread at the position `ctl`. -/
def stop (s : Session) : Option Session :=
  match s.ctl with
  | .stopCheck =>
    if s.state_ = .kRunning then some { s with ctl := .stopSet }
    else some { s with ctl := .stopWarn }
  | .stopSet => some { s with stop_ := true, ctl := .stopBreak }
  | .stopBreak => some (PcapSession_stop s.handle_ { s with ctl := .stopPoll })
  | .stopPoll =>
    if s.state_ = .kRunning then some s else some { s with ctl := .stopRet }
  | .stopWarn => some { s with ctl := .stopRet }
  | .stopRet => some { s with ctl := .idle, retval := some true }
  | _ => none

/-- The controller thread executes the statement it is at, in `start()` or in
`stop()`. -/
def ctlStep (s : Session) : Option Session :=
  match s.ctl with
  | .idle => none
  | .startCheck => start s
  | .startReset => start s
  | .startSpawn => start s
  | .startPoll => start s
  | .startRet => start s
  | .stopCheck => stop s
  | .stopSet => stop s
  | .stopBreak => stop s
  | .stopPoll => stop s
  | .stopWarn => stop s
  | .stopRet => stop s

/-- The body of `case 1` of the `switch` (lines 119-126). -/
def countPacket (c : Codec) (caplen : Nat) (data : List Nat) (t : StreamStats) : StreamStats :=
  match c.packetGuid data caplen with
  | some guid =>
    (t.modify guid (fun r => { r with rx_pkts := r.rx_pkts + 1 })).modify guid
      (fun r => { r with rx_bytes := r.rx_bytes + caplen })
  | none => t

/-- The `switch (ret)` of the receive loop (lines 118-141). -/
def switchRet (c : Codec) (ret : Int) (caplen : Nat) (data : List Nat) (s : Session) : Session :=
  if ret = 1 then { s with streamStats_ := countPacket c caplen data s.streamStats_ }
  else if ret = 0 then s
  else if ret = -1 then s
  else if ret = -2 then s
  else { s with stop_ := true }

/-- One statement of `void PcapRxStats::run()` (lines 45-155), executed by the
capture thread at the position `rx`.  The event is `rx` for a statement that
involves no library answer, and otherwise the library call of the statement
with its answer; `none` means that the thread is not at that statement.

`win32` selects the `Q_OS_WIN32` build, in which `pcap_setdirection` is not
called and the answer carried by `rxSetDirection` is unused.
`PcapSession::preRun()` and `PcapSession::postRun()` (outside this source
file) prepare and undo the delivery of the abort to the thread and change no
member of the object. -/
def run (win32 : Bool) (c : Codec) : Ev → Session → Option Session
  | .rx, s =>
    match s.rx with
    | .entry =>
      some { s with capture_filter := capture_filter c.magic, errbuf := "", rx := .openLive }
    | .openCheck =>
      match s.handle_ with
      | none =>
        if PCAP_OPENFLAG_PROMISCUOUS ≠ 0 ∧ containsPromiscuous s.errbuf = true then
          some { s with rx := .atExit }
        else some { s with rx := .atExit }
      | some _ => some { s with rx := .setDirection }
    | .skipFilter => some { s with lastPcapStats_ := ⟨0, 0, 0, 0, 0, 0⟩, rx := .setRunning }
    | .setRunning => some { s with state_ := .kRunning, rx := .nextEx }
    | .stopCheck =>
      if s.stop_ = true then some { s with rx := .close } else some { s with rx := .nextEx }
    | .close => some { s with rx := .clearHandle }
    | .clearHandle => some { s with handle_ := none, rx := .clearStop }
    | .clearStop => some { s with stop_ := false, rx := .atExit }
    | .atExit => some { s with state_ := .kFinished, rx := .idle }
    | _ => none
  | .rxOpen h errbuf, s =>
    if s.rx = .openLive then some { s with handle_ := h, errbuf := errbuf, rx := .openCheck }
    else none
  | .rxSetDirection ret, s =>
    if s.rx = .setDirection then
      if win32 then some { s with isDirectional_ := false, rx := .compile }
      else if ret < 0 then some { s with isDirectional_ := false, rx := .compile }
      else some { s with rx := .compile }
    else none
  | .rxCompile ret, s =>
    if s.rx = .compile then
      if ret < 0 then some { s with rx := .skipFilter } else some { s with rx := .setFilter }
    else none
  | .rxSetFilter ret, s =>
    if s.rx = .setFilter then
      if ret < 0 then some { s with rx := .skipFilter } else some { s with rx := .skipFilter }
    else none
  | .rxNext ret caplen data, s =>
    if s.rx = .nextEx then some { switchRet c ret caplen data s with rx := .stopCheck }
    else none
  | _, _ => none

/-- One event of a session.  `none` means that the event cannot occur in the
state: the thread concerned is not at that statement. -/
def step (win32 : Bool) (c : Codec) : Ev → Session → Option Session
  | .callStart, s =>
    if s.ctl = .idle then some { s with ctl := .startCheck, retval := none } else none
  | .callStop, s =>
    if s.ctl = .idle then some { s with ctl := .stopCheck, retval := none } else none
  | .ctl, s => ctlStep s
  | .rx, s => run win32 c .rx s
  | .rxOpen h errbuf, s => run win32 c (.rxOpen h errbuf) s
  | .rxSetDirection ret, s => run win32 c (.rxSetDirection ret) s
  | .rxCompile ret, s => run win32 c (.rxCompile ret) s
  | .rxSetFilter ret, s => run win32 c (.rxSetFilter ret) s
  | .rxNext ret caplen data, s => run win32 c (.rxNext ret caplen data) s

/-- A finite sequence of events, from left to right. -/
def exec (win32 : Bool) (c : Codec) : List Ev → Session → Option Session
  | [], s => some s
  | e :: es, s => (step win32 c e s).bind (exec win32 c es)

/-- The states a session can be in: those reached from a freshly constructed
object by events of `start()`, `run()` and `stop()`. -/
def Reachable (win32 : Bool) (c : Codec) (s : Session) : Prop :=
  ∃ device table id junk evs, exec win32 c evs (PcapRxStats device table id junk) = some s

/-- The event is the controller entering `start()` or `stop()`. -/
def Ev.isCall : Ev → Bool
  | .callStart => true
  | .callStop => true
  | _ => false

/-! ## Accounting of the packets read by the receive loop -/

/-- The event is a packet delivered by `pcap_next_ex` (return value 1) from
which the codec extracts the stream identifier `g`. -/
def Ev.yields (c : Codec) (g : Nat) : Ev → Bool
  | .rxNext ret caplen data => decide (ret = 1) && decide (c.packetGuid data caplen = some g)
  | _ => false

/-- The captured length carried by an event of `pcap_next_ex`. -/
def Ev.caplen : Ev → Nat
  | .rxNext _ caplen _ => caplen
  | _ => 0

/-- Number of delivered packets among the events that yield the identifier `g`. -/
def rxPktsOf (c : Codec) (g : Nat) (evs : List Ev) : Nat :=
  (evs.filter (Ev.yields c g)).length

/-- Sum of the captured lengths of the delivered packets that yield `g`. -/
def rxBytesOf (c : Codec) (g : Nat) (evs : List Ev) : Nat :=
  ((evs.filter (Ev.yields c g)).map Ev.caplen).sum

/-- The record of a stream after one more packet of `caplen` bytes was counted
for it. -/
def counted (r : Option StreamStatsTuple) (caplen : Nat) : StreamStatsTuple :=
  ⟨(r.getD ⟨0, 0⟩).rx_pkts + 1, (r.getD ⟨0, 0⟩).rx_bytes + caplen⟩

/-! ## Invariant of the two threads -/

/-- What holds of `state_`, `handle_` and the controller at each position of
the capture thread. -/
def RxInv (s : Session) : Prop :=
  match s.rx with
  | .idle => s.state_ ≠ .kRunning ∧ s.handle_ = none
  | .entry => s.state_ = .kNotStarted ∧ s.handle_ = none ∧ s.ctl = .startPoll
  | .openLive => s.state_ = .kNotStarted ∧ s.handle_ = none ∧ s.ctl = .startPoll
  | .openCheck => s.state_ = .kNotStarted ∧ s.ctl = .startPoll
  | .setDirection => s.state_ = .kNotStarted ∧ s.handle_ ≠ none ∧ s.ctl = .startPoll
  | .compile => s.state_ = .kNotStarted ∧ s.handle_ ≠ none ∧ s.ctl = .startPoll
  | .setFilter => s.state_ = .kNotStarted ∧ s.handle_ ≠ none ∧ s.ctl = .startPoll
  | .skipFilter => s.state_ = .kNotStarted ∧ s.handle_ ≠ none ∧ s.ctl = .startPoll
  | .setRunning => s.state_ = .kNotStarted ∧ s.handle_ ≠ none ∧ s.ctl = .startPoll
  | .nextEx => s.state_ = .kRunning ∧ s.handle_ ≠ none
  | .stopCheck => s.state_ = .kRunning ∧ s.handle_ ≠ none
  | .close => s.state_ = .kRunning ∧ s.handle_ ≠ none
  | .clearHandle => s.state_ = .kRunning ∧ s.handle_ ≠ none
  | .clearStop => s.state_ = .kRunning ∧ s.handle_ = none
  | .atExit =>
    s.handle_ = none ∧
      (s.state_ = .kRunning ∨ (s.state_ = .kNotStarted ∧ s.ctl = .startPoll))

/-- What holds while the controller is between the test of `start()` and the
launch of the capture thread. -/
def CtlInv (s : Session) : Prop :=
  match s.ctl with
  | .startReset => s.rx = .idle
  | .startSpawn => s.rx = .idle ∧ s.state_ = .kNotStarted
  | _ => True

/-- The invariant of a session. -/
def Inv (s : Session) : Prop := RxInv s ∧ CtlInv s

/-! ## A concrete session, used to evaluate the model -/

/-- A codec for the examples: the marker value used by the protocol, and a
packet whose last byte is `0xda` carries the stream identifier in its first
byte. -/
def demoCodec : Codec where
  magic := 0x1d10c0da
  packetGuid := fun data caplen =>
    if data.getLast? = some 0xda ∧ 0 < caplen then data.head? else none

/-- A freshly constructed session on `eth0` with an empty table. -/
def demoSession : Session := PcapRxStats "eth0" StreamStats.empty 0 ⟨0, 0, 0, 0, 0, 0⟩

/-- The events of a call of `start()` on an idle session whose open succeeds;
`dirRet` is the answer of `pcap_setdirection`. -/
def demoStart (dirRet : Int) : List Ev :=
  [.callStart, .ctl, .ctl, .ctl, .rx, .rxOpen (some 1) "", .rx, .rxSetDirection dirRet,
    .rxCompile 0, .rxSetFilter 0, .rx, .rx, .ctl, .ctl]

/-- The events of a call of `stop()` on a session that is in the receive loop. -/
def demoStop : List Ev :=
  [.callStop, .ctl, .ctl, .ctl, .rxNext (-2) 0 [], .rx, .rx, .rx, .rx, .rx, .ctl, .ctl]

/-- Five results of `pcap_next_ex` in the receive loop: two packets of stream
7 (60 and 64 bytes), a timeout, a packet without identifier and a read error. -/
def demoPackets : List Ev :=
  [.rxNext 1 60 [7, 1, 0xda], .rx, .rxNext 0 0 [], .rx, .rxNext 1 64 [7, 0xda], .rx,
    .rxNext 1 64 [8, 0xdb], .rx, .rxNext (-1) 0 [], .rx]

/-! ## Windows of `run()` in which the handle and the state disagree -/

/-- The capture thread is between `pcap_open_live` and `state_ = kRunning`
(lines 68-111). -/
def RxPc.opening : RxPc → Bool
  | .openCheck | .setDirection | .compile | .setFilter | .skipFilter | .setRunning => true
  | _ => false

/-- The capture thread is between `handle_ = NULL` and `state_ = kFinished`
(lines 151-154), after the receive loop. -/
def RxPc.closing : RxPc → Bool
  | .clearStop | .atExit => true
  | _ => false

/-! ## Calls of the controller, followed to their return -/

/-- The event is an answer of `pcap_next_ex`: one execution of the body of the
receive loop. -/
def Ev.isNext : Ev → Bool
  | .rxNext _ _ _ => true
  | _ => false

/-- The states of a run of `run()` whose open has failed, until the next call
of the controller: the capture thread is at the test of the handle, at the
label `_exit`, or has ended; `table` is the stream-statistics table when the
run started. -/
def OpenFailed (table : StreamStats) (t : Session) : Prop :=
  t.handle_ = none ∧ t.streamStats_ = table ∧
    (((t.rx = .openCheck ∨ t.rx = .atExit) ∧ t.state_ = .kNotStarted ∧ t.ctl = .startPoll) ∨
      (t.rx = .idle ∧ t.state_ = .kFinished ∧
        (t.ctl = .startPoll ∨ t.ctl = .startRet ∨ t.ctl = .idle)))

/-- The states of a session from the entry of a call of `start()` until the
controller makes its next call. -/
def InStart (t : Session) : Prop :=
  match t.ctl with
  | .startCheck => True
  | .startReset => True
  | .startSpawn => True
  | .startPoll => True
  | .startRet => t.state_ ≠ .kNotStarted
  | .idle => t.state_ ≠ .kNotStarted ∧ t.retval = some true
  | _ => False

/-- The states of a session from the entry of a call of `stop()`, made while
`state_` was not `kNotStarted`, until the controller makes its next call. -/
def InStop (t : Session) : Prop :=
  t.state_ ≠ .kNotStarted ∧
    match t.ctl with
    | .stopCheck => True
    | .stopSet => True
    | .stopBreak => True
    | .stopPoll => True
    | .stopWarn => t.state_ = .kFinished
    | .stopRet => t.state_ = .kFinished
    | .idle => t.state_ = .kFinished ∧ t.retval = some true
    | _ => False

/-- The answers of the library calls of the open sequence of `run()`. -/
structure OpenOutcome where
  handle : Option Nat
  errbuf : String
  setDirection : Int
  compile : Int
  setFilter : Int

/-- A schedule on which a call of `start()` returns: the events that follow
the entry of the call.  `running` tells whether `state_` is `kRunning` at the
call; otherwise the capture thread goes through the open sequence with the
answers `o`, and the controller then leaves its polling loop. -/
def startEvents (running : Bool) (o : OpenOutcome) : List Ev :=
  if running then [.ctl, .ctl]
  else
    [.ctl, .ctl, .ctl, .rx, .rxOpen o.handle o.errbuf, .rx]
      ++ (match o.handle with
          | none => [.rx]
          | some _ =>
            [.rxSetDirection o.setDirection, .rxCompile o.compile]
              ++ (if o.compile < 0 then [] else [.rxSetFilter o.setFilter])
              ++ [.rx, .rx])
      ++ [.ctl, .ctl]

/-- A schedule on which a call of `stop()` on a running session returns: the
events that follow the entry of the call, by the position of the capture
thread at the call.  In the receive loop the controller sets `stop_` and
aborts, the pending read answers `ret`, and the thread leaves the loop and
tears down; a thread that is already past `handle_ = NULL` ends first. -/
def stopEvents (pc : RxPc) (ret : Int) (caplen : Nat) (data : List Nat) : List Ev :=
  match pc with
  | .nextEx =>
    [.ctl, .ctl, .ctl, .rxNext ret caplen data, .rx, .rx, .rx, .rx, .rx, .ctl, .ctl]
  | .stopCheck => [.ctl, .ctl, .ctl, .rx, .rx, .rx, .rx, .rx, .ctl, .ctl]
  | .close => [.ctl, .ctl, .ctl, .rx, .rx, .rx, .rx, .ctl, .ctl]
  | .clearHandle => [.ctl, .ctl, .ctl, .rx, .rx, .rx, .ctl, .ctl]
  | .clearStop => [.rx, .rx, .ctl, .ctl, .ctl]
  | .atExit => [.rx, .ctl, .ctl, .ctl]
  | _ => []

/-! ## A call of `stop()` that meets the teardown of a loop that ended on its own -/

/-- The event is not an answer of `pcap_next_ex` outside the four that the
`switch` expects (1, 0, -1, -2). -/
def Ev.expected : Ev → Bool
  | .rxNext ret _ _ => decide (ret = 1 ∨ ret = 0 ∨ ret = -1 ∨ ret = -2)
  | _ => true

/-- Where `stop_` can be set as long as `pcap_next_ex` gives expected answers
only: the flag is then set by `stop()` alone, and the receive loop is left
only after `stop()` has set it. -/
def StopInv (s : Session) : Prop :=
  (s.stop_ = true →
      (s.ctl = .stopBreak ∨ s.ctl = .stopPoll) ∧
        (s.rx = .nextEx ∨ s.rx = .stopCheck ∨ s.rx = .close ∨ s.rx = .clearHandle ∨
          s.rx = .clearStop)) ∧
    (s.rx = .close ∨ s.rx = .clearHandle ∨ s.rx = .clearStop →
      s.ctl = .stopBreak ∨ s.ctl = .stopPoll) ∧
    (s.rx = .atExit → s.state_ = .kRunning → s.ctl = .stopBreak ∨ s.ctl = .stopPoll) ∧
    (s.ctl = .stopSet → s.rx = .nextEx ∨ s.rx = .stopCheck)

/-! # Properties -/

/-! ## Text of the capture filter -/

theorem lowestMarker_filter :
    lowestMarker "(ether[len - 4:4] == 0x%1)".data = some 1 := by decide

/-- Substitution into the format of the filter. -/
theorem replaceMarker_filter (rep : List Char) :
    replaceMarker 1 rep 0 "(ether[len - 4:4] == 0x%1)".data
      = "(ether[len - 4:4] == 0x".data ++ rep ++ ")".data := by
  rfl

/-- `QString::arg` on the format of the filter. -/
theorem QString_arg_filter (a : String) :
    QString_arg "(ether[len - 4:4] == 0x%1)" a = "(ether[len - 4:4] == 0x" ++ a ++ ")" := by
  unfold QString_arg
  rw [lowestMarker_filter]
  apply String.ext
  rw [String.data_append, String.data_append]
  exact replaceMarker_filter a.data

/-- With field width 0 no padding is added. -/
theorem pad_zero (txt : String) :
    String.mk (List.replicate (0 - txt.length) ' ') ++ txt = txt := by
  apply String.ext
  simp

/-! ## The stream-statistics table -/

theorem ctlStep_table {s t : Session} (h : ctlStep s = some t) : t.streamStats_ = s.streamStats_ := by
  rcases s with ⟨dev, id, st, stp, dir, hd, last, tbl, rx, ctl, cf, eb, rv⟩
  cases ctl <;> simp only [ctlStep, start, stop, PcapSession_start, PcapSession_stop] at h <;>
    (try split at h) <;> simp at h <;> subst h <;> rfl

/-- The statements of `run()` outside the `switch` leave the table as it is. -/
theorem run_table {w : Bool} {c : Codec} {s t : Session} (h : run w c .rx s = some t) :
    t.streamStats_ = s.streamStats_ := by
  simp only [run] at h
  split at h <;> (try split at h) <;> (try split at h) <;> simp at h <;> (try subst h) <;> (try rfl)

/-- The record of `g` after `case 1` of the `switch`. -/
theorem countPacket_apply (c : Codec) (caplen : Nat) (data : List Nat) (t : StreamStats) (g : Nat) :
    countPacket c caplen data t g
      = if c.packetGuid data caplen = some g then some (counted (t g) caplen) else t g := by
  unfold countPacket
  cases hg : c.packetGuid data caplen with
  | none => simp
  | some guid =>
    by_cases hk : guid = g
    · subst hk
      simp [StreamStats.modify, counted]
    · have hk2 : ¬ g = guid := fun h => hk h.symm
      simp [StreamStats.modify, hk, hk2]

/-- The record of `g` after one event. -/
theorem step_table {w : Bool} {c : Codec} {e : Ev} {s t : Session} (g : Nat)
    (h : step w c e s = some t) :
    t.streamStats_ g
      = if e.yields c g = true then some (counted (s.streamStats_ g) e.caplen)
        else s.streamStats_ g := by
  cases e with
  | callStart => simp [step, run] at h; obtain ⟨_, h⟩ := h; subst h; simp [Ev.yields]
  | callStop => simp [step, run] at h; obtain ⟨_, h⟩ := h; subst h; simp [Ev.yields]
  | ctl => simp only [step] at h; simp [Ev.yields, ctlStep_table h]
  | rx => simp only [step] at h; simp [Ev.yields, run_table h]
  | rxOpen hd eb => simp [step, run] at h; obtain ⟨_, h⟩ := h; subst h; simp [Ev.yields]
  | rxSetDirection r =>
    simp only [step, run] at h
    repeat' split at h
    all_goals simp at h
    all_goals subst h
    all_goals simp [Ev.yields]
  | rxCompile r =>
    simp only [step, run] at h
    repeat' split at h
    all_goals simp at h
    all_goals subst h
    all_goals simp [Ev.yields]
  | rxSetFilter r =>
    simp only [step, run] at h
    repeat' split at h
    all_goals simp at h
    all_goals subst h
    all_goals simp [Ev.yields]
  | rxNext r cap d =>
    simp only [step, run] at h
    split at h
    · simp at h
      subst h
      unfold switchRet
      by_cases h1 : r = 1
      · simp [h1, Ev.yields, Ev.caplen, countPacket_apply]
      · simp only [h1, if_false, Ev.yields, decide_False, Bool.false_and]
        repeat' split
        all_goals simp_all
    · simp at h

/-! ## The invariant holds in every reachable state -/

theorem ctlStep_inv {s t : Session} (h : Inv s) (hs : ctlStep s = some t) : Inv t := by
  rcases s with ⟨dev, id, st, stp, dir, hd, last, tbl, rx, ctl, cf, eb, rv⟩
  cases ctl <;> simp only [ctlStep, start, stop, PcapSession_start, PcapSession_stop] at hs <;>
    (try split at hs) <;> simp at hs <;> subst hs <;> cases rx <;>
    simp_all [Inv, RxInv, CtlInv]

/-- The statements of `run()` preserve the invariant. -/
theorem run_inv {w : Bool} {c : Codec} {s t : Session} (h : Inv s) (hs : run w c .rx s = some t) : Inv t := by
  rcases s with ⟨dev, id, st, stp, dir, hd, last, tbl, rx, ctl, cf, eb, rv⟩
  cases rx <;> simp only [run] at hs <;> (try split at hs) <;> (try split at hs) <;>
    simp at hs <;> subst hs <;> cases ctl <;>
    simp_all [Inv, RxInv, CtlInv]

/-- Every event preserves the invariant. -/
theorem step_inv {w : Bool} {c : Codec} {e : Ev} {s t : Session} (h : Inv s)
    (hs : step w c e s = some t) : Inv t := by
  cases e with
  | ctl => exact ctlStep_inv h hs
  | rx => exact run_inv h (show run w c .rx s = some t from hs)
  | callStart =>
    rcases s with ⟨dev, id, st, stp, dir, hd, last, tbl, rx, ctl, cf, eb, rv⟩
    simp [step, run] at hs
    obtain ⟨h1, h2⟩ := hs
    subst h1; subst h2
    cases rx <;> simp_all [Inv, RxInv, CtlInv]
  | callStop =>
    rcases s with ⟨dev, id, st, stp, dir, hd, last, tbl, rx, ctl, cf, eb, rv⟩
    simp [step, run] at hs
    obtain ⟨h1, h2⟩ := hs
    subst h1; subst h2
    cases rx <;> simp_all [Inv, RxInv, CtlInv]
  | rxOpen hd2 eb2 =>
    rcases s with ⟨dev, id, st, stp, dir, hd, last, tbl, rx, ctl, cf, eb, rv⟩
    simp [step, run] at hs
    obtain ⟨h1, h2⟩ := hs
    subst h1; subst h2
    simp_all [Inv, RxInv, CtlInv]
  | rxSetDirection r =>
    rcases s with ⟨dev, id, st, stp, dir, hd, last, tbl, rx, ctl, cf, eb, rv⟩
    simp only [step, run] at hs
    repeat' split at hs
    all_goals simp at hs
    all_goals subst hs
    all_goals simp_all [Inv, RxInv, CtlInv]
  | rxCompile r =>
    rcases s with ⟨dev, id, st, stp, dir, hd, last, tbl, rx, ctl, cf, eb, rv⟩
    simp only [step, run] at hs
    repeat' split at hs
    all_goals simp at hs
    all_goals subst hs
    all_goals simp_all [Inv, RxInv, CtlInv]
  | rxSetFilter r =>
    rcases s with ⟨dev, id, st, stp, dir, hd, last, tbl, rx, ctl, cf, eb, rv⟩
    simp only [step, run] at hs
    repeat' split at hs
    all_goals simp at hs
    all_goals subst hs
    all_goals simp_all [Inv, RxInv, CtlInv]
  | rxNext r cap d =>
    rcases s with ⟨dev, id, st, stp, dir, hd, last, tbl, rx, ctl, cf, eb, rv⟩
    simp only [step, run, switchRet] at hs
    repeat' split at hs
    all_goals simp at hs
    all_goals subst hs
    all_goals simp_all [Inv, RxInv, CtlInv]

/-- The constructor establishes the invariant. -/
theorem PcapRxStats_inv (device : String) (table : StreamStats) (id : Int) (junk : pcap_stat) :
    Inv (PcapRxStats device table id junk) := by
  simp [Inv, RxInv, CtlInv, PcapRxStats]

/-- Every sequence of events preserves the invariant. -/
theorem exec_inv {w : Bool} {c : Codec} :
    ∀ (evs : List Ev) (s t : Session), Inv s → exec w c evs s = some t → Inv t := by
  intro evs
  induction evs with
  | nil =>
    intro s t h hs
    simp [exec] at hs
    subst hs
    exact h
  | cons e es ih =>
    intro s t h hs
    simp only [exec] at hs
    cases h1 : step w c e s with
    | none => simp [h1] at hs
    | some s1 =>
      rw [h1] at hs
      exact ih s1 t (step_inv h h1) hs

/-- The invariant holds in every reachable state. -/
theorem reachable_inv {w : Bool} {c : Codec} {s : Session} (h : Reachable w c s) : Inv s := by
  obtain ⟨device, table, id, junk, evs, he⟩ := h
  exact exec_inv evs _ s (PcapRxStats_inv device table id junk) he

/-- Executing a concatenation of two sequences of events. -/
theorem exec_append {w : Bool} {c : Codec} :
    ∀ (xs ys : List Ev) (s : Session),
      exec w c (xs ++ ys) s = (exec w c xs s).bind (exec w c ys) := by
  intro xs
  induction xs with
  | nil => intro ys s; simp [exec]
  | cons e es ih =>
    intro ys s
    simp only [List.cons_append, exec]
    cases step w c e s with
    | none => simp
    | some s1 => simp [ih]

/-- One event leads from a reachable state to a reachable state. -/
theorem reachable_step {w : Bool} {c : Codec} {e : Ev} {s t : Session}
    (h : Reachable w c s) (hs : step w c e s = some t) : Reachable w c t := by
  obtain ⟨device, table, id, junk, evs, he⟩ := h
  refine ⟨device, table, id, junk, evs ++ [e], ?_⟩
  rw [exec_append, he]
  simp [exec, hs]

/-- A sequence of events leads from a reachable state to a reachable state. -/
theorem reachable_exec {w : Bool} {c : Codec} {evs : List Ev} {s t : Session}
    (h : Reachable w c s) (hs : exec w c evs s = some t) : Reachable w c t := by
  obtain ⟨device, table, id, junk, evs0, he⟩ := h
  refine ⟨device, table, id, junk, evs0 ++ evs, ?_⟩
  rw [exec_append, he]
  simpa using hs

/-- No digit character is a percent sign. -/
theorem digitChar_ne_pct (d : Nat) : Nat.digitChar d ≠ '%' := by
  rcases Nat.lt_or_ge d 16 with h | h
  · interval_cases d <;> decide
  · have h2 : Nat.digitChar d = '*' := by
      unfold Nat.digitChar
      repeat rw [if_neg (by omega)]
    rw [h2]
    decide

/-- The digits of a number hold no percent sign. -/
theorem toDigitsCore_noPct (b : Nat) :
    ∀ (fuel n : Nat) (acc : List Char), '%' ∉ acc → '%' ∉ Nat.toDigitsCore b fuel n acc := by
  intro fuel
  induction fuel with
  | zero => intro n acc h; simpa [Nat.toDigitsCore] using h
  | succ k ih =>
    intro n acc h
    unfold Nat.toDigitsCore
    have h2 : '%' ∉ Nat.digitChar (n % b) :: acc := by
      intro hm
      rcases List.mem_cons.mp hm with h3 | h3
      · exact digitChar_ne_pct _ h3.symm
      · exact h h3
    dsimp only
    split_ifs
    · exact h2
    · exact ih _ _ h2

/-- The text of a number holds no percent sign. -/
theorem number_noPct (n base : Nat) : '%' ∉ (QString_number n base).data := by
  unfold QString_number Nat.toDigits
  exact toDigitsCore_noPct base _ _ _ (by simp)

/-- A prefix without percent sign holds no place marker. -/
theorem lowestMarker_noPct :
    ∀ (xs ys : List Char), '%' ∉ xs → lowestMarker (xs ++ ys) = lowestMarker ys := by
  intro xs
  induction xs with
  | nil => intro ys _; rfl
  | cons x xs ih =>
    intro ys h
    have hx : x ≠ '%' := fun e => h (by simp [e])
    have hxs : '%' ∉ xs := fun e => h (by simp [e])
    simp only [List.cons_append, lowestMarker, hx, if_false]
    exact ih ys hxs

/-- Substitution leaves a prefix without percent sign as it is. -/
theorem replaceMarker_noPct (n : Nat) (rep : List Char) :
    ∀ (xs ys : List Char), '%' ∉ xs →
      replaceMarker n rep 0 (xs ++ ys) = xs ++ replaceMarker n rep 0 ys := by
  intro xs
  induction xs with
  | nil => intro ys _; rfl
  | cons x xs ih =>
    intro ys h
    have hx : x ≠ '%' := fun e => h (by simp [e])
    have hxs : '%' ∉ xs := fun e => h (by simp [e])
    simp [replaceMarker, hx, ih ys hxs]

/-- Substituting a number into a text `pre ++ post` whose part `pre` has no
percent sign. -/
theorem QString_argNum_at (fmt : String) (pre post out : List Char) (a n : Nat)
    (hf : fmt.data = pre ++ post) (hpre : '%' ∉ pre) (hlow : lowestMarker post = some n)
    (hrep : replaceMarker n (QString_number a 10).data 0 post = out) :
    (QString_argNum fmt a 0 10).data = pre ++ out := by
  unfold QString_argNum
  simp only [pad_zero]
  unfold QString_arg
  rw [hf, lowestMarker_noPct pre post hpre, hlow]
  simp only [replaceMarker_noPct n _ pre post hpre, hrep]

/-- The text of three counters. -/
theorem statsText_posix (inc : pcap_stat) :
    statsText false inc
      = "recv: " ++ QString_number inc.ps_recv 10 ++ " drop: " ++ QString_number inc.ps_drop 10
          ++ " ifdrop: " ++ QString_number inc.ps_ifdrop 10 := by
  have n1 := number_noPct inc.ps_recv 10
  have n2 := number_noPct inc.ps_drop 10
  have e1 := QString_argNum_at "recv: %1 drop: %2 ifdrop: %3" "recv: ".data
    "%1 drop: %2 ifdrop: %3".data
    ((QString_number inc.ps_recv 10).data ++ " drop: %2 ifdrop: %3".data) inc.ps_recv 1
    rfl (by decide) (by decide) rfl
  have e2 := QString_argNum_at (QString_argNum "recv: %1 drop: %2 ifdrop: %3" inc.ps_recv 0 10)
    ("recv: ".data ++ (QString_number inc.ps_recv 10).data ++ " drop: ".data)
    "%2 ifdrop: %3".data
    ((QString_number inc.ps_drop 10).data ++ " ifdrop: %3".data) inc.ps_drop 2
    (by rw [e1]; simp) (by simp [n1]) (by decide) rfl
  have e3 := QString_argNum_at
    (QString_argNum (QString_argNum "recv: %1 drop: %2 ifdrop: %3" inc.ps_recv 0 10)
      inc.ps_drop 0 10)
    ("recv: ".data ++ (QString_number inc.ps_recv 10).data ++ " drop: ".data
      ++ (QString_number inc.ps_drop 10).data ++ " ifdrop: ".data)
    "%3".data
    (QString_number inc.ps_ifdrop 10).data inc.ps_ifdrop 3
    (by rw [e2]; simp) (by simp [n1, n2]) (by decide) (by simp [replaceMarker, parseMarker, digitVal])
  apply String.ext
  simp only [statsText, Bool.false_eq_true, if_false, e3, String.data_append]

/-- The text of six counters (`Q_OS_WIN32` build). -/
theorem statsText_win32 (inc : pcap_stat) :
    statsText true inc
      = "recv: " ++ QString_number inc.ps_recv 10 ++ " drop: " ++ QString_number inc.ps_drop 10
          ++ " ifdrop: " ++ QString_number inc.ps_ifdrop 10
          ++ " capt: " ++ QString_number inc.ps_capt 10
          ++ " sent: " ++ QString_number inc.ps_sent 10
          ++ " netdrop: " ++ QString_number inc.ps_netdrop 10 := by
  have n1 := number_noPct inc.ps_recv 10
  have n2 := number_noPct inc.ps_drop 10
  have n3 := number_noPct inc.ps_ifdrop 10
  have n4 := number_noPct inc.ps_capt 10
  have n5 := number_noPct inc.ps_sent 10
  have e1 := QString_argNum_at "recv: %1 drop: %2 ifdrop: %3 capt: %4 sent: %5 netdrop: %6"
    "recv: ".data "%1 drop: %2 ifdrop: %3 capt: %4 sent: %5 netdrop: %6".data
    ((QString_number inc.ps_recv 10).data
      ++ " drop: %2 ifdrop: %3 capt: %4 sent: %5 netdrop: %6".data) inc.ps_recv 1
    rfl (by decide) (by decide) rfl
  have e2 := QString_argNum_at _
    ("recv: ".data ++ (QString_number inc.ps_recv 10).data ++ " drop: ".data)
    "%2 ifdrop: %3 capt: %4 sent: %5 netdrop: %6".data
    ((QString_number inc.ps_drop 10).data ++ " ifdrop: %3 capt: %4 sent: %5 netdrop: %6".data)
    inc.ps_drop 2 (by rw [e1]; simp) (by simp [n1]) (by decide) rfl
  have e3 := QString_argNum_at _
    ("recv: ".data ++ (QString_number inc.ps_recv 10).data ++ " drop: ".data
      ++ (QString_number inc.ps_drop 10).data ++ " ifdrop: ".data)
    "%3 capt: %4 sent: %5 netdrop: %6".data
    ((QString_number inc.ps_ifdrop 10).data ++ " capt: %4 sent: %5 netdrop: %6".data)
    inc.ps_ifdrop 3 (by rw [e2]; simp) (by simp [n1, n2]) (by decide) rfl
  have e4 := QString_argNum_at _
    ("recv: ".data ++ (QString_number inc.ps_recv 10).data ++ " drop: ".data
      ++ (QString_number inc.ps_drop 10).data ++ " ifdrop: ".data
      ++ (QString_number inc.ps_ifdrop 10).data ++ " capt: ".data)
    "%4 sent: %5 netdrop: %6".data
    ((QString_number inc.ps_capt 10).data ++ " sent: %5 netdrop: %6".data)
    inc.ps_capt 4 (by rw [e3]; simp) (by simp [n1, n2, n3]) (by decide) rfl
  have e5 := QString_argNum_at _
    ("recv: ".data ++ (QString_number inc.ps_recv 10).data ++ " drop: ".data
      ++ (QString_number inc.ps_drop 10).data ++ " ifdrop: ".data
      ++ (QString_number inc.ps_ifdrop 10).data ++ " capt: ".data
      ++ (QString_number inc.ps_capt 10).data ++ " sent: ".data)
    "%5 netdrop: %6".data
    ((QString_number inc.ps_sent 10).data ++ " netdrop: %6".data)
    inc.ps_sent 5 (by rw [e4]; simp) (by simp [n1, n2, n3, n4]) (by decide) rfl
  have e6 := QString_argNum_at _
    ("recv: ".data ++ (QString_number inc.ps_recv 10).data ++ " drop: ".data
      ++ (QString_number inc.ps_drop 10).data ++ " ifdrop: ".data
      ++ (QString_number inc.ps_ifdrop 10).data ++ " capt: ".data
      ++ (QString_number inc.ps_capt 10).data ++ " sent: ".data
      ++ (QString_number inc.ps_sent 10).data ++ " netdrop: ".data)
    "%6".data
    (QString_number inc.ps_netdrop 10).data
    inc.ps_netdrop 6 (by rw [e5]; simp) (by simp [n1, n2, n3, n4, n5]) (by decide)
    (by simp [replaceMarker, parseMarker, digitVal])
  apply String.ext
  simp only [statsText, if_true, e6, String.data_append]

/-- The `u_int` difference is the difference of the integers modulo `2 ^ 32`. -/
theorem usub_int (a b : Nat) : ((usub a b : Nat) : Int) = ((a : Int) - (b : Int)) % 2 ^ 32 := by
  unfold usub
  norm_num
  omega

/-- The `u_int` difference of a value and itself is zero. -/
theorem usub_self (a : Nat) : usub a a = 0 := by
  unfold usub
  norm_num
  omega

/-- A reading equal to the baseline gives an all-zero delta. -/
theorem incPcapStats_self (st : pcap_stat) : incPcapStats st st = ⟨0, 0, 0, 0, 0, 0⟩ := by
  simp [incPcapStats, usub_self]

/-- The result of `debugStats()` when the statistics query succeeds. -/
theorem debugStats_ok (w : Bool) (q : StatsQuery) (st : pcap_stat) (s : Session)
    (hq : (w = false ∧ q.ret = 0 ∧ q.stats = st) ∨
      (w = true ∧ q.exStats = some st ∧ 24 ≤ (q.size % 2 ^ 32).toNat)) :
    debugStats w q s
      = (statsText w (incPcapStats st s.lastPcapStats_), { s with lastPcapStats_ := st }) := by
  rcases hq with ⟨hw, hr, hst⟩ | ⟨hw, he, hsz⟩
  · subst hw; subst hst
    simp [debugStats, hr]
  · subst hw
    simp [debugStats, he]
    intro h
    omega

/-! ## The claims on the filter text, the statistics query and the table -/

/-- C6: for every marker value `m` returned by the codec, the capture filter
built by `run()` is exactly the test of the last four bytes of the frame
against `m` in hexadecimal, `(ether[len - 4:4] == 0x<m>)`, directly followed by
`and not (icmp or (vlan and icmp) or (vlan and icmp) or (vlan and icmp) or
(vlan and icmp) )`: the negated disjunction of `icmp` and exactly four
`(vlan and icmp)` alternatives.  The first statement of `run()` leaves this
text, for the marker of the codec, in the local `capture_filter`; for the
marker `0x1d10c0da` the digits are `1d10c0da`. -/
theorem capture_filter_is_trailer_test_without_icmp (m : Nat) (w : Bool) (c : Codec)
    (s : Session) :
    capture_filter m
        = "(ether[len - 4:4] == 0x" ++ QString_number m 16 ++ ")"
          ++ "and not (icmp or (vlan and icmp) or (vlan and icmp) or (vlan and icmp) or (vlan and icmp) )"
      ∧ (run w c .rx { s with rx := .entry }).map (fun t => t.capture_filter)
        = some ("(ether[len - 4:4] == 0x" ++ QString_number c.magic 16 ++ ")"
          ++ "and not (icmp or (vlan and icmp) or (vlan and icmp) or (vlan and icmp) or (vlan and icmp) )")
      ∧ capture_filter 0x1d10c0da
        = "(ether[len - 4:4] == 0x1d10c0da)and not (icmp or (vlan and icmp) or (vlan and icmp) or (vlan and icmp) or (vlan and icmp) )" := by
  have h : ∀ k : Nat, capture_filter k
      = "(ether[len - 4:4] == 0x" ++ QString_number k 16 ++ ")"
        ++ "and not (icmp or (vlan and icmp) or (vlan and icmp) or (vlan and icmp) or (vlan and icmp) )" := by
    intro k
    simp only [capture_filter, QString_argNum, BASE_HEX, pad_zero, QString_arg_filter]
    rfl
  refine ⟨h m, ?_, by decide⟩
  simp only [run, Option.map_some', h]

/-- C5: for every baseline `lastPcapStats_` and every successful reading `st`
of the engine statistics (`pcap_stats` returning 0, or in the `Q_OS_WIN32`
build `pcap_stats_ex` returning a record of at least six counters),
`debugStats()` returns the text of the differences `st - lastPcapStats_` of
the counters received, dropped and interface-dropped, each computed in
unsigned 32-bit arithmetic, and stores `st` as the new baseline; a second
successful call with the same reading returns a delta of zero for every
counter. -/
theorem debugStats_returns_delta_since_last_query (w : Bool) (q : StatsQuery) (st : pcap_stat)
    (s : Session)
    (hq : (w = false ∧ q.ret = 0 ∧ q.stats = st) ∨
      (w = true ∧ q.exStats = some st ∧ 24 ≤ (q.size % 2 ^ 32).toNat)) :
    (debugStats w q s).1
        = "recv: " ++ QString_number (usub st.ps_recv s.lastPcapStats_.ps_recv) 10
          ++ " drop: " ++ QString_number (usub st.ps_drop s.lastPcapStats_.ps_drop) 10
          ++ " ifdrop: " ++ QString_number (usub st.ps_ifdrop s.lastPcapStats_.ps_ifdrop) 10
          ++ (if w = true then
                " capt: " ++ QString_number (usub st.ps_capt s.lastPcapStats_.ps_capt) 10
                ++ " sent: " ++ QString_number (usub st.ps_sent s.lastPcapStats_.ps_sent) 10
                ++ " netdrop: "
                ++ QString_number (usub st.ps_netdrop s.lastPcapStats_.ps_netdrop) 10
              else "")
      ∧ ((usub st.ps_recv s.lastPcapStats_.ps_recv : Nat) : Int)
          = ((st.ps_recv : Int) - (s.lastPcapStats_.ps_recv : Int)) % 2 ^ 32
      ∧ ((usub st.ps_drop s.lastPcapStats_.ps_drop : Nat) : Int)
          = ((st.ps_drop : Int) - (s.lastPcapStats_.ps_drop : Int)) % 2 ^ 32
      ∧ ((usub st.ps_ifdrop s.lastPcapStats_.ps_ifdrop : Nat) : Int)
          = ((st.ps_ifdrop : Int) - (s.lastPcapStats_.ps_ifdrop : Int)) % 2 ^ 32
      ∧ (debugStats w q s).2 = { s with lastPcapStats_ := st }
      ∧ (debugStats w q (debugStats w q s).2).1
          = (if w = true then "recv: 0 drop: 0 ifdrop: 0 capt: 0 sent: 0 netdrop: 0"
             else "recv: 0 drop: 0 ifdrop: 0")
      ∧ (debugStats w q (debugStats w q s).2).2 = { s with lastPcapStats_ := st } := by
  have h1 := debugStats_ok w q st s hq
  have h2 := debugStats_ok w q st { s with lastPcapStats_ := st } hq
  simp only [incPcapStats_self] at h2
  refine ⟨?_, usub_int _ _, usub_int _ _, usub_int _ _, by rw [h1], ?_, by rw [h1, h2]⟩
  · rw [h1]
    cases w
    · simp only [statsText_posix, incPcapStats, Bool.false_eq_true, if_false]
      apply String.ext
      simp
    · simp only [statsText_win32, incPcapStats, if_true]
      apply String.ext
      simp
  · rw [h1, h2]
    cases w
    · rfl
    · rfl

/-- Witness of C5: a reading of 5, 6 and 7 after a baseline of zero. -/
theorem debugStats_returns_delta_since_last_query_witness :
    (debugStats false ⟨0, ⟨5, 6, 7, 0, 0, 0⟩, none, 0, ""⟩ demoSession).2.lastPcapStats_
        = ⟨5, 6, 7, 0, 0, 0⟩
      ∧ (debugStats false ⟨0, ⟨5, 6, 7, 0, 0, 0⟩, none, 0, ""⟩
          (debugStats false ⟨0, ⟨5, 6, 7, 0, 0, 0⟩, none, 0, ""⟩ demoSession).2).1
        = "recv: 0 drop: 0 ifdrop: 0" := by
  have h := debugStats_returns_delta_since_last_query false
    ⟨0, ⟨5, 6, 7, 0, 0, 0⟩, none, 0, ""⟩ ⟨5, 6, 7, 0, 0, 0⟩ demoSession
    (Or.inl ⟨rfl, rfl, rfl⟩)
  exact ⟨by rw [h.2.2.2.2.1], h.2.2.2.2.2.1⟩

/-- C1: for every initial table, every sequence of events of a session and
every stream identifier `g`: the record of `g` is changed by exactly the
packets delivered by `pcap_next_ex` (return value 1) for which `packetGuid`
succeeds with `g`.  If there is no such packet the record of `g` is as before
(no record is created, and timeouts, read errors and packets without an
identifier change nothing); otherwise `rx_pkts` is the initial value plus the
number of those packets and `rx_bytes` the initial value plus the sum of their
captured lengths. -/
theorem run_counts_packets_of_each_stream (w : Bool) (c : Codec) (g : Nat) :
    ∀ (evs : List Ev) (s t : Session), exec w c evs s = some t →
      (rxPktsOf c g evs = 0 → t.streamStats_ g = s.streamStats_ g) ∧
      (0 < rxPktsOf c g evs → t.streamStats_ g
          = some ⟨((s.streamStats_ g).getD ⟨0, 0⟩).rx_pkts + rxPktsOf c g evs,
                  ((s.streamStats_ g).getD ⟨0, 0⟩).rx_bytes + rxBytesOf c g evs⟩) := by
  intro evs
  induction evs with
  | nil =>
    intro s t h
    simp [exec] at h
    subst h
    simp [rxPktsOf]
  | cons e es ih =>
    intro s t h
    simp only [exec] at h
    cases hs : step w c e s with
    | none => simp [hs] at h
    | some s1 =>
      rw [hs] at h
      simp only [Option.bind] at h
      obtain ⟨ih0, ih1⟩ := ih s1 t h
      have hst := step_table g hs
      by_cases hy : e.yields c g = true
      · rw [if_pos hy] at hst
        have hp : rxPktsOf c g (e :: es) = rxPktsOf c g es + 1 := by
          simp [rxPktsOf, List.filter_cons, hy]
        have hb : rxBytesOf c g (e :: es) = e.caplen + rxBytesOf c g es := by
          simp [rxBytesOf, List.filter_cons, hy]
        constructor
        · intro h0
          omega
        · intro _
          rw [hp, hb]
          rcases Nat.eq_zero_or_pos (rxPktsOf c g es) with hz | hz
          · rw [ih0 hz, hst]
            have hbz : rxBytesOf c g es = 0 := by
              unfold rxPktsOf at hz
              unfold rxBytesOf
              rw [List.length_eq_zero] at hz
              rw [hz]
              rfl
            simp [counted, hz, hbz]
          · rw [ih1 hz, hst]
            simp [counted]
            constructor <;> omega
      · rw [if_neg hy] at hst
        have hp : rxPktsOf c g (e :: es) = rxPktsOf c g es := by
          simp [rxPktsOf, List.filter_cons, hy]
        have hb : rxBytesOf c g (e :: es) = rxBytesOf c g es := by
          simp [rxBytesOf, List.filter_cons, hy]
        rw [hp, hb, ← hst]
        exact ⟨ih0, ih1⟩

/-- Witness of C1: a run that reads five results, two of them packets of
stream 7 (60 and 64 bytes), one a packet without identifier, one a timeout and
one a read error; stream 7 ends with 2 packets and 124 bytes and stream 8 has
no record. -/
theorem run_counts_packets_of_each_stream_witness :
    (exec false demoCodec (demoStart 0 ++ demoPackets ++ demoStop) demoSession).map
        (fun t => (t.streamStats_ 7, t.streamStats_ 8))
      = some (some ⟨2, 124⟩, none) := by
  have hsome : (exec false demoCodec (demoStart 0 ++ demoPackets ++ demoStop)
      demoSession).isSome = true := by rfl
  obtain ⟨t, h⟩ := Option.isSome_iff_exists.mp hsome
  have h7 := (run_counts_packets_of_each_stream false demoCodec 7 _ _ t h).2 (by decide)
  have h8 := (run_counts_packets_of_each_stream false demoCodec 8 _ _ t h).1 (by decide)
  rw [h, Option.map_some', h7, h8]
  rfl

/-! ## The receive loop and the direction flag -/

theorem ctlStep_dir {s t : Session} (h : ctlStep s = some t) :
    t.isDirectional_ = s.isDirectional_ := by
  rcases s with ⟨dev, id, st, stp, dir, hd, last, tbl, rx, ctl, cf, eb, rv⟩
  cases ctl <;> simp only [ctlStep, start, stop, PcapSession_start, PcapSession_stop] at h <;>
    (try split at h) <;> simp at h <;> subst h <;> rfl

/-- The statements of `run()` that involve no library answer leave `isDirectional_`. -/
theorem run_dir {w : Bool} {c : Codec} {s t : Session} (h : run w c .rx s = some t) :
    t.isDirectional_ = s.isDirectional_ := by
  simp only [run] at h
  split at h <;> (try split at h) <;> (try split at h) <;> simp at h <;> (try subst h) <;> (try rfl)

/-- `isDirectional_` after one event. -/
theorem step_dir {w : Bool} {c : Codec} {e : Ev} {s t : Session}
    (h : step w c e s = some t) :
    t.isDirectional_ = true ↔
      s.isDirectional_ = true ∧ ∀ ret, e = .rxSetDirection ret → w = false ∧ 0 ≤ ret := by
  cases e with
  | callStart => simp [step, run] at h; obtain ⟨_, h⟩ := h; subst h; simp
  | callStop => simp [step, run] at h; obtain ⟨_, h⟩ := h; subst h; simp
  | ctl => simp only [step] at h; simp [ctlStep_dir h]
  | rx => simp only [step] at h; simp [run_dir h]
  | rxOpen hd eb => simp [step, run] at h; obtain ⟨_, h⟩ := h; subst h; simp
  | rxSetDirection r =>
    simp only [step, run] at h
    repeat' split at h
    all_goals simp at h
    all_goals subst h
    all_goals simp_all
  | rxCompile r =>
    simp only [step, run] at h
    repeat' split at h
    all_goals simp at h
    all_goals subst h
    all_goals simp
  | rxSetFilter r =>
    simp only [step, run] at h
    repeat' split at h
    all_goals simp at h
    all_goals subst h
    all_goals simp
  | rxNext r cap d =>
    simp only [step, run, switchRet] at h
    repeat' split at h
    all_goals simp at h
    all_goals subst h
    all_goals simp

/-- `isDirectional_` after a sequence of events. -/
theorem exec_dir {w : Bool} {c : Codec} :
    ∀ (evs : List Ev) (s t : Session), exec w c evs s = some t →
      (t.isDirectional_ = true ↔
        s.isDirectional_ = true ∧ ∀ ret, Ev.rxSetDirection ret ∈ evs → w = false ∧ 0 ≤ ret) := by
  intro evs
  induction evs with
  | nil =>
    intro s t h
    simp [exec] at h
    subst h
    simp
  | cons e es ih =>
    intro s t h
    simp only [exec] at h
    cases hs : step w c e s with
    | none => simp [hs] at h
    | some s1 =>
      rw [hs] at h
      simp only [Option.bind] at h
      rw [ih s1 t h, step_dir hs]
      constructor
      · rintro ⟨⟨h1, h2⟩, h3⟩
        refine ⟨h1, ?_⟩
        intro ret hm
        rcases List.mem_cons.mp hm with h4 | h4
        · exact h2 ret h4.symm
        · exact h3 ret h4
      · rintro ⟨h1, h2⟩
        exact ⟨⟨h1, fun ret he => h2 ret (by simp [he])⟩,
          fun ret hm => h2 ret (List.mem_cons_of_mem _ hm)⟩

/-- C9, counterexample: in a session that is running with `stop_` clear, the
read answers -2 and the loop goes on: the next packet is read and counted.
In a session whose `stop_` was set by `stop()`, the read answers -1 and the
loop exits. -/
theorem loop_exit_ignores_kind_of_read_error :
    (exec false demoCodec
        (demoStart 0 ++ [.rxNext (-2) 0 [], .rx, .rxNext 1 60 [7, 0xda]]) demoSession).map
        (fun t => (t.stop_, t.rx, t.streamStats_ 7))
      = some (false, .stopCheck, some ⟨1, 60⟩)
    ∧ (exec false demoCodec
        (demoStart 0 ++ [.callStop, .ctl, .ctl, .rxNext (-1) 0 [], .rx]) demoSession).map
        (fun t => (t.stop_, t.rx))
      = some (true, .close) := by
  constructor <;> rfl

/-- C9, amended: when `pcap_next_ex` answers -1 (read error) or -2 (break),
the `switch` changes no member, and the test of line 143 that follows decides
alone: the loop exits if `stop_` is set at that moment and goes to the next
read if it is clear, for both answers alike.  After the exit no further packet
is read. -/
theorem read_error_exits_iff_stop_requested (w : Bool) (c : Codec) (s : Session) (ret : Int)
    (caplen : Nat) (data : List Nat) (hpc : s.rx = .nextEx) (hret : ret = -1 ∨ ret = -2) :
    step w c (.rxNext ret caplen data) s = some { s with rx := .stopCheck }
      ∧ (∀ u : Session, u.rx = .stopCheck →
          step w c .rx u = some { u with rx := if u.stop_ = true then .close else .nextEx })
      ∧ exec w c [.rxNext ret caplen data, .rx] s
          = some { s with rx := if s.stop_ = true then .close else .nextEx }
      ∧ (∀ (u : Session) (r : Int) (n : Nat) (d : List Nat), u.rx = .close →
          step w c (.rxNext r n d) u = none) := by
  have h1 : step w c (.rxNext ret caplen data) s = some { s with rx := .stopCheck } := by
    rcases hret with h | h <;> subst h <;> simp [step, run, switchRet, hpc]
  have h2 : ∀ u : Session, u.rx = .stopCheck →
      step w c .rx u = some { u with rx := if u.stop_ = true then .close else .nextEx } := by
    intro u hu
    simp only [step, run, hu]
    split <;> rfl
  refine ⟨h1, h2, ?_, ?_⟩
  · simp only [exec, h1, Option.bind]
    rw [h2 _ rfl]
  · intro u r n d hu
    simp [step, run, hu]

/-- Witness of C9, amended: the session right after `start()` returned, and
the answer -2. -/
theorem read_error_exits_iff_stop_requested_witness :
    exec false demoCodec [.rxNext (-2) 0 [], .rx]
        { demoSession with state_ := .kRunning, handle_ := some 1, rx := .nextEx }
      = some { demoSession with state_ := .kRunning, handle_ := some 1, rx := .nextEx } :=
  (read_error_exits_iff_stop_requested false demoCodec
    { demoSession with state_ := .kRunning, handle_ := some 1, rx := .nextEx } (-2) 0 []
    rfl (Or.inr rfl)).2.2.1

/-- C10, counterexample: `pcap_setdirection` fails in the first run of a
session and succeeds (answer 0) in the run after the restart; the session is
running again and `isDirectional()` is false. -/
theorem isDirectional_stays_false_after_restart :
    (exec false demoCodec (demoStart (-1) ++ demoStop ++ demoStart 0) demoSession).map
        (fun t => (t.state_, isDirectional t))
      = some (.kRunning, false) := by
  rfl

/-- C10, amended: `isDirectional_` is set when the object is constructed and
only ever cleared, by a run in which the restriction to inbound packets fails
(or, in the `Q_OS_WIN32` build, by every run whose open succeeds).  In every
state of a session `isDirectional()` returns true if and only if no attempt to
restrict the direction has failed since the construction: in the first run
this is the success of that run, and once an attempt has failed the answer
stays false in every later run. -/
theorem isDirectional_iff_no_attempt_failed (w : Bool) (c : Codec) (device : String)
    (table : StreamStats) (id : Int) (junk : pcap_stat) (evs : List Ev) (t : Session)
    (h : exec w c evs (PcapRxStats device table id junk) = some t) :
    isDirectional t = true ↔ ∀ ret, Ev.rxSetDirection ret ∈ evs → w = false ∧ 0 ≤ ret := by
  have h1 := exec_dir evs _ t h
  simpa [isDirectional, PcapRxStats] using h1

/-- Witness of C10, amended: the first run of a session, with a successful
restriction. -/
theorem isDirectional_iff_no_attempt_failed_witness :
    ∃ t, exec false demoCodec (demoStart 0) demoSession = some t ∧ isDirectional t = true := by
  have hsome : (exec false demoCodec (demoStart 0) demoSession).isSome = true := by rfl
  obtain ⟨t, h⟩ := Option.isSome_iff_exists.mp hsome
  refine ⟨t, h, ?_⟩
  rw [isDirectional_iff_no_attempt_failed false demoCodec "eth0" StreamStats.empty 0
    ⟨0, 0, 0, 0, 0, 0⟩ (demoStart 0) t h]
  intro ret hm
  simp [demoStart] at hm
  subst hm
  exact ⟨rfl, le_refl _⟩

/-! ## The state machine -/

/-- C8, counterexample: right after `pcap_open_live` returned a handle the
handle is set and the state is still `kNotStarted`; right after
`handle_ = NULL` in the teardown the handle is null and the state is still
`kRunning`. -/
theorem handle_and_state_disagree_in_open_and_teardown :
    (exec false demoCodec [.callStart, .ctl, .ctl, .ctl, .rx, .rxOpen (some 1) ""]
        demoSession).map (fun t => (t.handle_, t.state_))
      = some (some 1, .kNotStarted)
    ∧ (exec false demoCodec
        (demoStart 0 ++ [.callStop, .ctl, .ctl, .ctl, .rxNext (-2) 0 [], .rx, .rx, .rx])
        demoSession).map (fun t => (t.handle_, t.state_))
      = some (none, .kRunning) := by
  constructor <;> rfl

/-- C8, amended: in every reachable state, `handle_` is non-null if and only
if `state_ == kRunning`, except while `run()` is between `pcap_open_live` and
`state_ = kRunning` (the state is then still `kNotStarted`) or between
`handle_ = NULL` and `state_ = kFinished` (the handle is then already null).
In every reachable state a session that is `kFinished` has a null handle, and
a non-null handle is found only in the states `kNotStarted` and `kRunning`. -/
theorem handle_iff_running_outside_open_and_teardown (w : Bool) (c : Codec) (s : Session)
    (hr : Reachable w c s) :
    (s.rx.opening = false → s.rx.closing = false →
        (s.handle_ ≠ none ↔ s.state_ = .kRunning))
      ∧ (s.rx.opening = true → s.state_ = .kNotStarted)
      ∧ (s.rx.closing = true → s.handle_ = none)
      ∧ (s.state_ = .kFinished → s.handle_ = none)
      ∧ (s.handle_ ≠ none → s.state_ = .kNotStarted ∨ s.state_ = .kRunning) := by
  have hi := reachable_inv hr
  rcases s with ⟨dev, id, st, stp, dir, hd, last, tbl, rx, ctl, cf, eb, rv⟩
  cases rx <;> cases st <;> simp_all [Inv, RxInv, CtlInv, RxPc.opening, RxPc.closing]

/-- Witness of C8, amended: the session after `start()` returned. -/
theorem handle_iff_running_outside_open_and_teardown_witness :
    ∃ t, exec false demoCodec (demoStart 0) demoSession = some t
      ∧ (t.handle_ ≠ none ↔ t.state_ = .kRunning) := by
  have hsome : (exec false demoCodec (demoStart 0) demoSession).isSome = true := by rfl
  obtain ⟨t, h⟩ := Option.isSome_iff_exists.mp hsome
  have hrx : (exec false demoCodec (demoStart 0) demoSession).map (fun u => u.rx)
      = some .nextEx := by rfl
  rw [h] at hrx
  simp only [Option.map_some', Option.some.injEq] at hrx
  refine ⟨t, h, ?_⟩
  exact (handle_iff_running_outside_open_and_teardown false demoCodec t
    ⟨"eth0", StreamStats.empty, 0, ⟨0, 0, 0, 0, 0, 0⟩, demoStart 0, h⟩).1
    (by rw [hrx]; rfl) (by rw [hrx]; rfl)

/-! ## Calls followed to their return -/

/-- An invariant that every event other than a call preserves holds at the end
of a sequence of such events. -/
theorem exec_preserves {w : Bool} {c : Codec} (P : Session → Prop)
    (hP : ∀ (e : Ev) (s t : Session), Inv s → P s → e.isCall = false →
      step w c e s = some t → P t) :
    ∀ (evs : List Ev) (s t : Session), Inv s → P s → (∀ e ∈ evs, e.isCall = false) →
      exec w c evs s = some t → P t := by
  intro evs
  induction evs with
  | nil =>
    intro s t _ hp _ hs
    simp [exec] at hs
    subst hs
    exact hp
  | cons e es ih =>
    intro s t hi hp hc hs
    simp only [exec] at hs
    cases h1 : step w c e s with
    | none => simp [h1] at hs
    | some s1 =>
      rw [h1] at hs
      exact ih s1 t (step_inv hi h1) (hP e s s1 hi hp (hc e (by simp)) h1)
        (fun e2 he2 => hc e2 (List.mem_cons_of_mem _ he2)) hs

/-- The states of a call of `start()` are closed under the events other than calls. -/
theorem step_inStart {w : Bool} {c : Codec} (e : Ev) (s t : Session) (_hi : Inv s)
    (hp : InStart s) (hc : e.isCall = false) (hs : step w c e s = some t) : InStart t := by
  rcases s with ⟨dev, id, st, stp, dir, hd, last, tbl, rx, ctl, cf, eb, rv⟩
  cases e with
  | ctl =>
    simp only [step, run] at hs
    cases ctl <;> simp only [ctlStep, start, stop, PcapSession_start, PcapSession_stop] at hs <;>
      (try split at hs) <;> simp at hs <;> subst hs <;> simp_all [InStart]
  | rx =>
    simp only [step, run] at hs
    cases rx <;> simp only [run] at hs <;> (try split at hs) <;> (try split at hs) <;>
      simp at hs <;> subst hs <;> cases ctl <;> simp_all [InStart]
  | callStart => simp [Ev.isCall] at hc
  | callStop => simp [Ev.isCall] at hc
  | rxOpen hd2 eb2 =>
    simp [step, run] at hs; obtain ⟨_, h2⟩ := hs; subst h2; cases ctl <;> simp_all [InStart]
  | rxSetDirection r =>
    simp only [step, run] at hs
    repeat' split at hs
    all_goals simp at hs
    all_goals subst hs
    all_goals cases ctl <;> simp_all [InStart]
  | rxCompile r =>
    simp only [step, run] at hs
    repeat' split at hs
    all_goals simp at hs
    all_goals subst hs
    all_goals cases ctl <;> simp_all [InStart]
  | rxSetFilter r =>
    simp only [step, run] at hs
    repeat' split at hs
    all_goals simp at hs
    all_goals subst hs
    all_goals cases ctl <;> simp_all [InStart]
  | rxNext r cap d =>
    simp only [step, run, switchRet] at hs
    repeat' split at hs
    all_goals simp at hs
    all_goals subst hs
    all_goals cases ctl <;> simp_all [InStart]

/-- The states of a call of `stop()` are closed under the events other than calls. -/
theorem step_inStop {w : Bool} {c : Codec} (e : Ev) (s t : Session) (hi : Inv s)
    (hp : InStop s) (hc : e.isCall = false) (hs : step w c e s = some t) : InStop t := by
  rcases s with ⟨dev, id, st, stp, dir, hd, last, tbl, rx, ctl, cf, eb, rv⟩
  cases e with
  | ctl =>
    simp only [step, run] at hs
    cases ctl <;> simp only [ctlStep, start, stop, PcapSession_start, PcapSession_stop] at hs <;>
      (try split at hs) <;> simp at hs <;> subst hs <;> cases st <;> simp_all [InStop]
  | rx =>
    simp only [step, run] at hs
    cases rx <;> simp only [run] at hs <;> (try split at hs) <;> (try split at hs) <;>
      simp at hs <;> subst hs <;> cases ctl <;>
      simp_all [InStop, Inv, RxInv, CtlInv]
  | callStart => simp [Ev.isCall] at hc
  | callStop => simp [Ev.isCall] at hc
  | rxOpen hd2 eb2 =>
    simp [step, run] at hs; obtain ⟨_, h2⟩ := hs; subst h2; cases ctl <;> simp_all [InStop]
  | rxSetDirection r =>
    simp only [step, run] at hs
    repeat' split at hs
    all_goals simp at hs
    all_goals subst hs
    all_goals cases ctl <;> simp_all [InStop]
  | rxCompile r =>
    simp only [step, run] at hs
    repeat' split at hs
    all_goals simp at hs
    all_goals subst hs
    all_goals cases ctl <;> simp_all [InStop]
  | rxSetFilter r =>
    simp only [step, run] at hs
    repeat' split at hs
    all_goals simp at hs
    all_goals subst hs
    all_goals cases ctl <;> simp_all [InStop]
  | rxNext r cap d =>
    simp only [step, run, switchRet] at hs
    repeat' split at hs
    all_goals simp at hs
    all_goals subst hs
    all_goals cases ctl <;> simp_all [InStop]

/-- The states of a run whose open failed are closed under the events other than calls. -/
theorem step_openFailed {w : Bool} {c : Codec} (table : StreamStats) (e : Ev) (s t : Session)
    (_hi : Inv s) (hp : OpenFailed table s) (hc : e.isCall = false)
    (hs : step w c e s = some t) : OpenFailed table t := by
  rcases s with ⟨dev, id, st, stp, dir, hd, last, tbl, rx, ctl, cf, eb, rv⟩
  cases e with
  | ctl =>
    simp only [step, run] at hs
    cases ctl <;> simp only [ctlStep, start, stop, PcapSession_start, PcapSession_stop] at hs <;>
      (try split at hs) <;> simp at hs <;> subst hs <;> simp_all [OpenFailed]
  | rx =>
    simp only [step, run] at hs
    cases rx <;> simp only [run] at hs <;> (try split at hs) <;> (try split at hs) <;>
      simp at hs <;> subst hs <;> simp_all [OpenFailed]
  | callStart => simp [Ev.isCall] at hc
  | callStop => simp [Ev.isCall] at hc
  | rxOpen hd2 eb2 =>
    simp [step, run] at hs; obtain ⟨h1, h2⟩ := hs; subst h2; simp_all [OpenFailed]
  | rxSetDirection r =>
    simp only [step, run] at hs
    repeat' split at hs
    all_goals simp at hs
    all_goals simp_all [OpenFailed]
  | rxCompile r =>
    simp only [step, run] at hs
    repeat' split at hs
    all_goals simp at hs
    all_goals simp_all [OpenFailed]
  | rxSetFilter r =>
    simp only [step, run] at hs
    repeat' split at hs
    all_goals simp at hs
    all_goals simp_all [OpenFailed]
  | rxNext r cap d =>
    simp only [step, run, switchRet] at hs
    repeat' split at hs
    all_goals simp at hs
    all_goals simp_all [OpenFailed]

/-- While the open has failed no answer of `pcap_next_ex` is consumed. -/
theorem exec_openFailed_noNext {w : Bool} {c : Codec} (table : StreamStats) :
    ∀ (evs : List Ev) (s t : Session), Inv s → OpenFailed table s →
      (∀ e ∈ evs, e.isCall = false) → exec w c evs s = some t →
      ∀ e ∈ evs, e.isNext = false := by
  intro evs
  induction evs with
  | nil => intro s t _ _ _ _ e he; simp at he
  | cons e es ih =>
    intro s t hi hp hc hs
    simp only [exec] at hs
    cases h1 : step w c e s with
    | none => simp [h1] at hs
    | some s1 =>
      rw [h1] at hs
      have hce : e.isCall = false := hc e (by simp)
      have htail := ih s1 t (step_inv hi h1) (step_openFailed table e s s1 hi hp hce h1)
        (fun e2 he2 => hc e2 (List.mem_cons_of_mem _ he2)) hs
      intro e2 he2
      rcases List.mem_cons.mp he2 with h2 | h2
      · subst h2
        cases e2 with
        | rxNext r cap d =>
          exfalso
          rcases hp with ⟨_, _, hrx | hrx⟩
          · rcases hrx.1 with h3 | h3 <;> simp [step, run, h3] at h1
          · simp [step, run, hrx.1] at h1
        | _ => rfl
      · exact htail e2 h2

/-- C4: for every run of `run()` whose `pcap_open_live` fails, whatever text
the failure leaves in `errbuf` (about promiscuous mode or not) and however the
controller is scheduled: until the next call of the controller `state_` is
never `kRunning` and `isRunning()` is false, the handle is null, the
stream-statistics table is as it was, no answer of `pcap_next_ex` is consumed
(the body of the receive loop is not executed), and once the thread has ended
`state_` is `kFinished`; the two remaining statements of the thread do end the
run in `kFinished`. -/
theorem open_failure_ends_finished_without_running (w : Bool) (c : Codec) (s : Session)
    (hr : Reachable w c s) (hpc : s.rx = .openLive) (errbuf : String) :
    (∀ (evs : List Ev) (t : Session), (∀ e ∈ evs, e.isCall = false) →
        exec w c (.rxOpen none errbuf :: evs) s = some t →
        t.state_ ≠ .kRunning ∧ isRunning t = false ∧ t.handle_ = none
          ∧ t.streamStats_ = s.streamStats_ ∧ (∀ e ∈ evs, e.isNext = false)
          ∧ (t.rx = .idle → t.state_ = .kFinished))
      ∧ s.state_ = .kNotStarted
      ∧ ∃ t, exec w c [.rxOpen none errbuf, .rx, .rx] s = some t ∧ t.rx = .idle
          ∧ t.state_ = .kFinished ∧ isRunning t = false ∧ t.handle_ = none
          ∧ t.streamStats_ = s.streamStats_ := by
  have hi := reachable_inv hr
  have h1 : step w c (.rxOpen none errbuf) s
      = some { s with handle_ := none, errbuf := errbuf, rx := .openCheck } := by
    simp [step, run, hpc]
  have hi1 := step_inv hi h1
  have hf1 : OpenFailed s.streamStats_
      { s with handle_ := none, errbuf := errbuf, rx := .openCheck } := by
    rcases s with ⟨dev, id, st, stp, dir, hd, last, tbl, rx, ctl, cf, eb, rv⟩
    simp only at hpc
    subst hpc
    simp_all [OpenFailed, Inv, RxInv]
  refine ⟨?_, ?_, ?_⟩
  · intro evs t hc hs
    simp only [exec, h1, Option.bind] at hs
    have hf := exec_preserves (OpenFailed s.streamStats_)
      (step_openFailed s.streamStats_) evs _ t hi1 hf1 hc hs
    have hn := exec_openFailed_noNext s.streamStats_ evs _ t hi1 hf1 hc hs
    obtain ⟨hh, ht, hcase⟩ := hf
    have hnr : t.state_ ≠ .kRunning := by
      rcases hcase with h | h
      · rw [h.2.1]; decide
      · rw [h.2.1]; decide
    refine ⟨hnr, by simp [isRunning, hnr], hh, ht, hn, ?_⟩
    intro hidle
    rcases hcase with h | h
    · rcases h.1 with h3 | h3 <;> rw [h3] at hidle <;> cases hidle
    · exact h.2.1
  · rcases s with ⟨dev, id, st, stp, dir, hd, last, tbl, rx, ctl, cf, eb, rv⟩
    simp only at hpc
    subst hpc
    simp_all [Inv, RxInv]
  · refine ⟨{ s with handle_ := none, errbuf := errbuf, state_ := .kFinished, rx := .idle },
      ?_, rfl, rfl, by simp [isRunning], rfl, rfl⟩
    have e1 : exec w c [.rxOpen none errbuf, .rx, .rx] s
        = exec w c [.rx, .rx] { s with handle_ := none, errbuf := errbuf, rx := .openCheck } := by
      show (step w c (.rxOpen none errbuf) s).bind _ = _
      rw [h1]
      rfl
    rw [e1]
    simp [exec, step, run]

/-- Witness of C4: the first run of a session, on a device that denies
promiscuous mode. -/
theorem open_failure_ends_finished_without_running_witness :
    ∃ s, exec false demoCodec [.callStart, .ctl, .ctl, .ctl, .rx] demoSession = some s
      ∧ s.rx = .openLive
      ∧ ∃ t, exec false demoCodec
          [.rxOpen none "eth0: failed to set promiscuous mode", .rx, .rx] s = some t
        ∧ t.rx = .idle ∧ t.state_ = .kFinished ∧ isRunning t = false ∧ t.handle_ = none
        ∧ t.streamStats_ = s.streamStats_ :=
  ⟨_, rfl, rfl,
    (open_failure_ends_finished_without_running false demoCodec _
      ⟨"eth0", StreamStats.empty, 0, ⟨0, 0, 0, 0, 0, 0⟩,
        [.callStart, .ctl, .ctl, .ctl, .rx], rfl⟩ rfl
      "eth0: failed to set promiscuous mode").2.2⟩

/-- The schedule of `start()` holds no further call. -/
theorem startEvents_noCalls (running : Bool) (o : OpenOutcome) :
    ∀ e ∈ startEvents running o, e.isCall = false := by
  have h : (startEvents running o).all (fun e => !e.isCall) = true := by
    unfold startEvents
    cases running <;> cases o.handle <;> by_cases hc : o.compile < 0 <;> simp [hc, Ev.isCall]
  intro e he
  have h2 := List.all_eq_true.mp h e he
  simpa using h2

/-- C3: for every state of a session in which the controller calls `start()`
and however the two threads are scheduled, when the call returns `state_` is
`kRunning` or `kFinished`, never `kNotStarted`, and the value returned is
`true`; and for every outcome of the open sequence the call does return, on
the schedule in which the capture thread runs its open sequence while the
controller polls. -/
theorem start_returns_true_in_running_or_finished (w : Bool) (c : Codec) (s : Session)
    (hr : Reachable w c s) (hidle : s.ctl = .idle) :
    (∀ (evs : List Ev) (t : Session), (∀ e ∈ evs, e.isCall = false) →
        exec w c (.callStart :: evs) s = some t → t.ctl = .idle →
        (t.state_ = .kRunning ∨ t.state_ = .kFinished) ∧ t.state_ ≠ .kNotStarted
          ∧ t.retval = some true)
      ∧ (∀ o : OpenOutcome, ∃ t,
          exec w c (.callStart :: startEvents (decide (s.state_ = .kRunning)) o) s = some t
            ∧ t.ctl = .idle
            ∧ (s.state_ ≠ .kRunning →
                t.state_ = if o.handle = none then .kFinished else .kRunning)) := by
  have hi := reachable_inv hr
  have h1 : step w c .callStart s = some { s with ctl := .startCheck, retval := none } := by
    simp [step, run, hidle]
  have hi1 := step_inv hi h1
  constructor
  · intro evs t hc hs hret
    simp only [exec, h1, Option.bind] at hs
    have hp := exec_preserves InStart step_inStart evs _ t hi1 (by simp [InStart]) hc hs
    unfold InStart at hp
    rw [hret] at hp
    simp only at hp
    refine ⟨?_, hp.1, hp.2⟩
    cases hst : t.state_ with
    | kNotStarted => exact absurd hst hp.1
    | kRunning => exact Or.inl rfl
    | kFinished => exact Or.inr rfl
  · intro o
    rcases s with ⟨dev, id, st, stp, dir, hd, last, tbl, rx, ctl, cf, eb, rv⟩
    simp only at hidle
    subst hidle
    have hrx : st ≠ .kRunning → rx = .idle := by
      intro hst
      cases rx <;> cases st <;> simp_all [Inv, RxInv]
    rcases o with ⟨oh, oe, od, oc, of⟩
    cases st with
    | kRunning =>
      simp only [startEvents, decide_True, if_true, exec, step, run, ctlStep, start, stop, Option.bind,
        ↓reduceIte]
      exact ⟨_, rfl, rfl, fun h => absurd rfl h⟩
    | kNotStarted =>
      rw [hrx (by decide)]
      cases oh with
      | none =>
        simp only [startEvents, reduceCtorEq, decide_False, Bool.false_eq_true, if_false,
          List.cons_append, List.nil_append, List.append_assoc, exec, step, run, ctlStep, start, stop,
          PcapSession_start, Option.bind, ite_self, ↓reduceIte]
        exact ⟨_, rfl, rfl, fun _ => rfl⟩
      | some x =>
        by_cases hoc : oc < 0 <;> by_cases hod : od < 0 <;> cases w <;>
          simp only [startEvents, reduceCtorEq, decide_False, Bool.false_eq_true, if_false,
            if_true, List.cons_append, List.nil_append, List.append_assoc, exec, step, run, ctlStep, start, stop,
            run, PcapSession_start, Option.bind, ite_self, ↓reduceIte, hoc, hod] <;>
          exact ⟨_, rfl, rfl, fun _ => rfl⟩
    | kFinished =>
      rw [hrx (by decide)]
      cases oh with
      | none =>
        simp only [startEvents, reduceCtorEq, decide_False, Bool.false_eq_true, if_false,
          List.cons_append, List.nil_append, List.append_assoc, exec, step, run, ctlStep, start, stop,
          PcapSession_start, Option.bind, ite_self, ↓reduceIte]
        exact ⟨_, rfl, rfl, fun _ => rfl⟩
      | some x =>
        by_cases hoc : oc < 0 <;> by_cases hod : od < 0 <;> cases w <;>
          simp only [startEvents, reduceCtorEq, decide_False, Bool.false_eq_true, if_false,
            if_true, List.cons_append, List.nil_append, List.append_assoc, exec, step, run, ctlStep, start, stop,
            run, PcapSession_start, Option.bind, ite_self, ↓reduceIte, hoc, hod] <;>
          exact ⟨_, rfl, rfl, fun _ => rfl⟩

/-- Witness of C3: `start()` called on a freshly constructed session whose
open succeeds. -/
theorem start_returns_true_in_running_or_finished_witness :
    ∃ t, exec false demoCodec
        (.callStart :: startEvents (decide (demoSession.state_ = .kRunning))
          ⟨some 1, "", 0, 0, 0⟩) demoSession = some t
      ∧ t.ctl = .idle
      ∧ (demoSession.state_ ≠ .kRunning →
          t.state_ = if (⟨some 1, "", 0, 0, 0⟩ : OpenOutcome).handle = none then .kFinished
            else .kRunning) :=
  (start_returns_true_in_running_or_finished false demoCodec demoSession
    ⟨"eth0", StreamStats.empty, 0, ⟨0, 0, 0, 0, 0, 0⟩, [], rfl⟩ rfl).2 ⟨some 1, "", 0, 0, 0⟩

/-- The schedule of `stop()` holds no further call. -/
theorem stopEvents_noCalls (pc : RxPc) (ret : Int) (caplen : Nat) (data : List Nat) :
    ∀ e ∈ stopEvents pc ret caplen data, e.isCall = false := by
  have h : (stopEvents pc ret caplen data).all (fun e => !e.isCall) = true := by
    cases pc <;> simp [stopEvents, Ev.isCall]
  intro e he
  have h2 := List.all_eq_true.mp h e he
  simpa using h2

/-- A call of `stop()` on a running session, over every interleaving: when it
returns, `state_` is `kFinished`, the handle is null, `isRunning()` is false
and the value returned is `true`; and the call does return, whatever the
pending read answers, on the schedule in which the capture thread leaves the
loop and tears down while the controller polls. -/
theorem stop_returns_finished (w : Bool) (c : Codec) (s : Session)
    (hr : Reachable w c s) (hidle : s.ctl = .idle) (hrun : s.state_ = .kRunning) :
    (∀ (evs : List Ev) (t : Session), (∀ e ∈ evs, e.isCall = false) →
        exec w c (.callStop :: evs) s = some t → t.ctl = .idle →
        t.state_ = .kFinished ∧ t.handle_ = none ∧ isRunning t = false
          ∧ t.retval = some true)
      ∧ (∀ (ret : Int) (caplen : Nat) (data : List Nat), ∃ t,
          exec w c (.callStop :: stopEvents s.rx ret caplen data) s = some t ∧ t.ctl = .idle) := by
  have hi := reachable_inv hr
  have h1 : step w c .callStop s = some { s with ctl := .stopCheck, retval := none } := by
    simp [step, run, hidle]
  have hi1 := step_inv hi h1
  constructor
  · intro evs t hc hs hret
    simp only [exec, h1, Option.bind] at hs
    have hp := exec_preserves InStop step_inStop evs _ t hi1 (by simp [InStop, hrun]) hc hs
    have hit := exec_inv evs _ t hi1 hs
    unfold InStop at hp
    rw [hret] at hp
    simp only at hp
    obtain ⟨_, hfin, hrv⟩ := hp
    rcases t with ⟨dev, id, st, stp, dir, hd, last, tbl, rx, ctl, cf, eb, rv⟩
    simp only at hfin hret hrv
    subst hfin; subst hret
    cases rx <;> simp_all [Inv, RxInv, CtlInv, isRunning]
  · intro ret caplen data
    rcases s with ⟨dev, id, st, stp, dir, hd, last, tbl, rx, ctl, cf, eb, rv⟩
    simp only at hidle hrun
    subst hidle; subst hrun
    have hrx : ((rx = .nextEx ∨ rx = .stopCheck ∨ rx = .close ∨ rx = .clearHandle)
        ∧ ∃ x, hd = some x) ∨ ((rx = .clearStop ∨ rx = .atExit) ∧ hd = none) := by
      cases rx <;> cases hd <;> simp_all [Inv, RxInv]
    clear hi hi1 h1 hr
    rcases hrx with ⟨h | h | h | h, x, hx⟩ | ⟨h | h, hx⟩
    all_goals subst h
    all_goals subst hx
    · by_cases h1 : ret = 1
      · simp only [stopEvents, exec, step, run, ctlStep, start, stop, PcapSession_stop,
          Option.bind, ite_self, ↓reduceIte, reduceCtorEq, switchRet, h1]
        exact ⟨_, rfl, rfl⟩
      · by_cases h2 : ret = 0
        · simp only [stopEvents, exec, step, run, ctlStep, start, stop, PcapSession_stop,
            Option.bind, ite_self, ↓reduceIte, reduceCtorEq, switchRet, h1, h2]
          exact ⟨_, rfl, rfl⟩
        · by_cases h3 : ret = -1
          · simp only [stopEvents, exec, step, run, ctlStep, start, stop, PcapSession_stop,
              Option.bind, ite_self, ↓reduceIte, reduceCtorEq, switchRet, h1, h2, h3]
            exact ⟨_, rfl, rfl⟩
          · by_cases h4 : ret = -2
            · simp only [stopEvents, exec, step, run, ctlStep, start, stop, PcapSession_stop,
                Option.bind, ite_self, ↓reduceIte, reduceCtorEq, switchRet, h1, h2, h3, h4]
              exact ⟨_, rfl, rfl⟩
            · simp only [stopEvents, exec, step, run, ctlStep, start, stop, PcapSession_stop,
                Option.bind, ite_self, ↓reduceIte, reduceCtorEq, switchRet, h1, h2, h3, h4]
              exact ⟨_, rfl, rfl⟩
    all_goals
      simp only [stopEvents, exec, step, run, ctlStep, start, stop, PcapSession_stop,
        Option.bind, ite_self, ↓reduceIte, reduceCtorEq]
    all_goals exact ⟨_, rfl, rfl⟩

/-- As long as `pcap_next_ex` gives expected answers only, every event
preserves the description of where `stop_` can be set. -/
theorem step_stopInv {w : Bool} {c : Codec} {e : Ev} {s t : Session} (hi : Inv s)
    (hp : StopInv s) (he : e.expected = true) (hs : step w c e s = some t) : StopInv t := by
  rcases s with ⟨dev, id, st, stp, dir, hd, last, tbl, rx, ctl, cf, eb, rv⟩
  cases e with
  | ctl =>
    simp only [step] at hs
    cases ctl <;> simp only [ctlStep, start, stop, PcapSession_start, PcapSession_stop] at hs <;>
      (try split at hs) <;> simp at hs <;> subst hs <;> cases rx <;>
      simp_all [Inv, RxInv, CtlInv, StopInv]
  | rx =>
    simp only [step] at hs
    cases rx <;> simp only [run] at hs <;> (try split at hs) <;> (try split at hs) <;>
      simp at hs <;> subst hs <;> cases ctl <;>
      simp_all [Inv, RxInv, CtlInv, StopInv]
  | callStart =>
    simp [step, run] at hs
    obtain ⟨h1, h2⟩ := hs
    subst h1; subst h2
    cases rx <;> simp_all [Inv, RxInv, CtlInv, StopInv]
  | callStop =>
    simp [step, run] at hs
    obtain ⟨h1, h2⟩ := hs
    subst h1; subst h2
    cases rx <;> simp_all [Inv, RxInv, CtlInv, StopInv]
  | rxOpen hd2 eb2 =>
    simp [step, run] at hs
    obtain ⟨h1, h2⟩ := hs
    subst h1; subst h2
    simp_all [Inv, RxInv, CtlInv, StopInv]
  | rxSetDirection r =>
    simp only [step, run] at hs
    repeat' split at hs
    all_goals simp at hs
    all_goals subst hs
    all_goals simp_all [Inv, RxInv, CtlInv, StopInv]
  | rxCompile r =>
    simp only [step, run] at hs
    repeat' split at hs
    all_goals simp at hs
    all_goals subst hs
    all_goals simp_all [Inv, RxInv, CtlInv, StopInv]
  | rxSetFilter r =>
    simp only [step, run] at hs
    repeat' split at hs
    all_goals simp at hs
    all_goals subst hs
    all_goals simp_all [Inv, RxInv, CtlInv, StopInv]
  | rxNext r cap d =>
    simp only [step, run, switchRet] at hs
    simp only [Ev.expected, decide_eq_true_eq] at he
    repeat' split at hs
    all_goals simp at hs
    all_goals subst hs
    all_goals simp_all [Inv, RxInv, CtlInv, StopInv]

/-- As long as `pcap_next_ex` gives expected answers only, `stop_` is clear in
every state of a session in which the controller is in no call: in particular
whenever `stop()` has returned. -/
theorem stop_clear_without_unexpected_answer (w : Bool) (c : Codec) (device : String)
    (table : StreamStats) (id : Int) (junk : pcap_stat) :
    ∀ (evs : List Ev) (t : Session), (∀ e ∈ evs, e.expected = true) →
      exec w c evs (PcapRxStats device table id junk) = some t →
      StopInv t ∧ (t.ctl = .idle → t.stop_ = false) := by
  have key : ∀ (evs : List Ev) (s t : Session), Inv s → StopInv s →
      (∀ e ∈ evs, e.expected = true) → exec w c evs s = some t → StopInv t := by
    intro evs
    induction evs with
    | nil =>
      intro s t _ hp _ hs
      simp [exec] at hs
      subst hs
      exact hp
    | cons e es ih =>
      intro s t hi hp he hs
      simp only [exec] at hs
      cases h1 : step w c e s with
      | none => simp [h1] at hs
      | some s1 =>
        rw [h1] at hs
        exact ih s1 t (step_inv hi h1) (step_stopInv hi hp (he e (by simp)) h1)
          (fun e2 he2 => he e2 (List.mem_cons_of_mem _ he2)) hs
  intro evs t he hs
  have hst := key evs _ t (PcapRxStats_inv device table id junk)
    (by simp [StopInv, PcapRxStats]) he hs
  refine ⟨hst, ?_⟩
  intro hidle
  cases hstop : t.stop_ with
  | false => rfl
  | true =>
    have h2 := (hst.1 hstop).1
    rw [hidle] at h2
    simp at h2

end PcapRxStats
